/-
Verification of the v210 encoder (libavcodec/v210enc.c).

The encoder converts planar YUV frames (8-bit 4:2:2 / 4:2:0, or 10-bit
4:2:2) into the packed v210 wire format: little-endian 32-bit words, each
holding three 10-bit fields, four words per group of six luma samples.

The development below is a shallow embedding of the C source:
  * `CLIP` / `CLIP8`        — the clipping macros,
  * `writePixels` / `writePixels8` — the WRITE_PIXELS / WRITE_PIXELS8 macros,
  * `v210_planar_pack_10_c` / `v210_planar_pack_8_c` — the bulk packers,
  * `tail10` / `tail8`      — the scalar per-row tail of encode_frame,
  * `encodeRow10` / `encodeRow8` — one row of encode_frame,
  * `encodeRows10` / `encodeRows8`, `encode_frame10` / `encode_frame8`
                            — the per-frame loops, including the 4:2:0
                              progressive / interlaced chroma-row reuse,
  * `encode_init`           — the setup-time width check.

Planes are modelled as flat lists of natural-number samples together with a
row stride counted in samples; machine pointers become list offsets; the
32-bit output buffer becomes a list of bytes produced by `AV_WL32`.
-/
import Mathlib

namespace V210

/-- av_clip(v, 4, 1019): clamp a sample into the legal 10-bit range. -/
def CLIP (v : Nat) : Nat := max 4 (min 1019 v)

/-- av_clip(v, 1, 254): clamp a sample into the legal 8-bit range. -/
def CLIP8 (v : Nat) : Nat := max 1 (min 254 v)

/-- Read the i-th sample of a plane slice (pointer dereference `p[i]`). -/
def nth (l : List Nat) (i : Nat) : Nat := l.getD i 0

/-- WRITE_PIXELS(a, b, c): val = CLIP(*a) | CLIP(*b)<<10 | CLIP(*c)<<20. -/
def writePixels (a b c : Nat) : Nat :=
  CLIP a ||| (CLIP b <<< 10) ||| (CLIP c <<< 20)

/-- WRITE_PIXELS8(a, b, c): val = CLIP8(*a)<<2 | CLIP8(*b)<<12 | CLIP8(*c)<<22. -/
def writePixels8 (a b c : Nat) : Nat :=
  (CLIP8 a <<< 2) ||| (CLIP8 b <<< 12) ||| (CLIP8 c <<< 22)

/-- AV_WL32(dst, val): store a 32-bit value as four little-endian bytes. -/
def AV_WL32 (v : Nat) : List Nat :=
  [v % 256, (v >>> 8) % 256, (v >>> 16) % 256, (v >>> 24) % 256]

/-- One iteration of the 10-bit bulk loop body: the four WRITE_PIXELS calls
WRITE_PIXELS(u,y,v); WRITE_PIXELS(y,u,y); WRITE_PIXELS(v,y,u);
WRITE_PIXELS(y,v,y), consuming 6 luma and 3+3 chroma samples. -/
def pack10Group (y u v : List Nat) : List Nat :=
  [ writePixels (nth u 0) (nth y 0) (nth v 0),
    writePixels (nth y 1) (nth u 1) (nth y 2),
    writePixels (nth v 1) (nth y 3) (nth u 2),
    writePixels (nth y 4) (nth v 2) (nth y 5) ]

/-- One run of four WRITE_PIXELS8 calls of the 8-bit loop body (the body
performs two such runs per iteration). -/
def pack8Group (y u v : List Nat) : List Nat :=
  [ writePixels8 (nth u 0) (nth y 0) (nth v 0),
    writePixels8 (nth y 1) (nth u 1) (nth y 2),
    writePixels8 (nth v 1) (nth y 3) (nth u 2),
    writePixels8 (nth y 4) (nth v 2) (nth y 5) ]

/-- v210_planar_pack_10_c: `for (i = 0; i < width - 5; i += 6)` emitting four
words per iteration; the loop runs ⌊width/6⌋ times. -/
def v210_planar_pack_10_c : List Nat → List Nat → List Nat → Nat → List Nat
  | y, u, v, width + 6 =>
      pack10Group y u v ++
        v210_planar_pack_10_c (y.drop 6) (u.drop 3) (v.drop 3) width
  | _, _, _, _ => []

/-- v210_planar_pack_8_c: `for (i = 0; i < width - 11; i += 12)` with an
unrolled body of eight WRITE_PIXELS8 calls (two 6-sample groups). -/
def v210_planar_pack_8_c : List Nat → List Nat → List Nat → Nat → List Nat
  | y, u, v, width + 12 =>
      pack8Group y u v ++ pack8Group (y.drop 6) (u.drop 3) (v.drop 3) ++
        v210_planar_pack_8_c (y.drop 12) (u.drop 6) (v.drop 6) width
  | _, _, _, _ => []

/-- Remainder handling of one 10-bit row (encode_frame, after the scalar
group loop); `r` is the number of luma samples still unwritten, i.e.
`width - w`.  Mirrors:
  if (w < width - 1) { WRITE_PIXELS(u,y,v); val = CLIP(*y++);
                       if (w == width - 2) flush val; }
  if (w < width - 3) { val |= CLIP(*u++)<<10 | CLIP(*y++)<<20; flush;
                       val = CLIP(*v++) | CLIP(*y++)<<10; flush; } -/
def tailRem10 (y u v : List Nat) (r : Nat) : List Nat :=
  if 2 ≤ r then
    writePixels (nth u 0) (nth y 0) (nth v 0) ::
      ((if r = 2 then [CLIP (nth y 1)] else []) ++
       (if 4 ≤ r then
          [ CLIP (nth y 1) ||| (CLIP (nth u 1) <<< 10) ||| (CLIP (nth y 2) <<< 20),
            CLIP (nth v 1) ||| (CLIP (nth y 3) <<< 10) ]
        else []))
  else []

/-- Remainder handling of one 8-bit row, mirroring the WRITE_PIXELS8 /
CLIP8-shifted variant of `tailRem10`. -/
def tailRem8 (y u v : List Nat) (r : Nat) : List Nat :=
  if 2 ≤ r then
    writePixels8 (nth u 0) (nth y 0) (nth v 0) ::
      ((if r = 2 then [CLIP8 (nth y 1) <<< 2] else []) ++
       (if 4 ≤ r then
          [ (CLIP8 (nth y 1) <<< 2) ||| (CLIP8 (nth u 1) <<< 12) ||| (CLIP8 (nth y 2) <<< 22),
            (CLIP8 (nth v 1) <<< 2) ||| (CLIP8 (nth y 3) <<< 12) ]
        else []))
  else []

/-- Scalar tail of one 10-bit row: the `for (; w < width - 5; w += 6)` group
loop followed by the remainder blocks; `r = width - w` at loop entry. -/
def tail10 : List Nat → List Nat → List Nat → Nat → List Nat
  | y, u, v, r + 6 =>
      pack10Group y u v ++ tail10 (y.drop 6) (u.drop 3) (v.drop 3) r
  | y, u, v, r => tailRem10 y u v r

/-- Scalar tail of one 8-bit row. -/
def tail8 : List Nat → List Nat → List Nat → Nat → List Nat
  | y, u, v, r + 6 =>
      pack8Group y u v ++ tail8 (y.drop 6) (u.drop 3) (v.drop 3) r
  | y, u, v, r => tailRem8 y u v r

/-- aligned_width = ((avctx->width + 47) / 48) * 48. -/
def aligned_width (width : Nat) : Nat := ((width + 47) / 48) * 48

/-- stride = aligned_width * 8 / 3 (the per-line output byte count). -/
def stride (width : Nat) : Nat := aligned_width width * 8 / 3

/-- line_padding = stride - ((width * 8 + 11) / 12) * 4. -/
def line_padding (width : Nat) : Nat :=
  stride width - ((width * 8 + 11) / 12) * 4

/-- One 10-bit row of encode_frame (sample_factor_10 = 1, the C default):
the bulk packer over `sample_w * sample_size` samples followed by the
scalar tail over the remaining `width mod 6` samples. -/
def encodeRow10 (y u v : List Nat) (width : Nat) : List Nat :=
  v210_planar_pack_10_c y u v (width / 6 * 6) ++
    tail10 (y.drop (width / 6 * 6)) (u.drop (width / 6 * 6 / 2))
      (v.drop (width / 6 * 6 / 2)) (width - width / 6 * 6)

/-- One 8-bit row of encode_frame (sample_factor_8 = 1): the bulk packer
over `sample_w * 12` samples followed by the scalar tail. -/
def encodeRow8 (y u v : List Nat) (width : Nat) : List Nat :=
  v210_planar_pack_8_c y u v (width / 12 * 12) ++
    tail8 (y.drop (width / 12 * 12)) (u.drop (width / 12 * 12 / 2))
      (v.drop (width / 12 * 12 / 2)) (width - width / 12 * 12)

/-- Bytes of one output line: the content words written through AV_WL32
followed by `memset(dst, 0, line_padding)`. -/
def lineBytes (ws : List Nat) (width : Nat) : List Nat :=
  ws.flatMap AV_WL32 ++ List.replicate (line_padding width) 0

/-- Input frame descriptor: flat planes, per-plane row strides counted in
samples, geometry, and the interlaced / pixel-format flags. -/
structure Frame where
  yP : List Nat
  uP : List Nat
  vP : List Nat
  lsY : Nat
  lsU : Nat
  lsV : Nat
  width : Nat
  height : Nat
  fmt420 : Bool
  interlaced : Bool

/-- Chroma pointer state of the 8-bit loop: current offsets of u and v and
the saved u_even / v_even offsets. -/
structure ChromaState where
  ou : Nat
  ov : Nat
  ouE : Nat
  ovE : Nat
deriving DecidableEq, Repr

/-- The 4:2:0 chroma-row logic executed at the top of each 8-bit row:
interlaced: capture u_even/v_even at h%4==0, restore at h%4==2;
progressive: restore on odd rows, capture on even rows. -/
def chromaAdjust (fmt420 interlaced : Bool) (h : Nat) (s : ChromaState) : ChromaState :=
  if fmt420 then
    if interlaced then
      if h % 4 = 0 then { s with ouE := s.ou, ovE := s.ov }
      else if h % 4 = 2 then { s with ou := s.ouE, ov := s.ovE }
      else s
    else
      if h % 2 = 1 then { s with ou := s.ouE, ov := s.ovE }
      else { s with ouE := s.ou, ovE := s.ov }
  else s

/-- Net chroma pointer movement over one row: the consumption inside the row
plus the end-of-row `u += linesize - width/2` adds one full row stride. -/
def chromaAdvance (lsU lsV : Nat) (s : ChromaState) : ChromaState :=
  { s with ou := s.ou + lsU, ov := s.ov + lsV }

/-- Bytes of the row encoded at luma offset `oy` with chroma state `s`
(before the per-row chroma adjustment). -/
def rowBytesAt (f : Frame) (h oy : Nat) (s : ChromaState) : List Nat :=
  lineBytes
    (encodeRow8 (f.yP.drop oy)
      (f.uP.drop (chromaAdjust f.fmt420 f.interlaced h s).ou)
      (f.vP.drop (chromaAdjust f.fmt420 f.interlaced h s).ov) f.width)
    f.width

/-- The 8-bit per-frame loop: `n` rows remaining, `h` the current row index,
`oy` the luma offset, `s` the chroma pointer state. -/
def encodeRows8 (f : Frame) : Nat → Nat → Nat → ChromaState → List Nat
  | 0, _, _, _ => []
  | n + 1, h, oy, s =>
      rowBytesAt f h oy s ++
        encodeRows8 f n (h + 1) (oy + f.lsY)
          (chromaAdvance f.lsU f.lsV (chromaAdjust f.fmt420 f.interlaced h s))

/-- encode_frame on the 8-bit branch (YUV422P / YUV420P). -/
def encode_frame8 (f : Frame) : List Nat :=
  encodeRows8 f f.height 0 0 ⟨0, 0, 0, 0⟩

/-- The 10-bit per-frame loop (no 4:2:0 handling on this branch). -/
def encodeRows10 (f : Frame) : Nat → Nat → Nat → Nat → List Nat
  | 0, _, _, _ => []
  | n + 1, oy, ou, ov =>
      lineBytes (encodeRow10 (f.yP.drop oy) (f.uP.drop ou) (f.vP.drop ov) f.width)
          f.width ++
        encodeRows10 f n (oy + f.lsY) (ou + f.lsU) (ov + f.lsV)

/-- encode_frame on the 10-bit branch (YUV422P10). -/
def encode_frame10 (f : Frame) : List Nat :=
  encodeRows10 f f.height 0 0 0

/-- Result of encode_init. -/
inductive InitResult where
  | ok : InitResult
  | einval : InitResult
deriving DecidableEq, Repr

/-- encode_init: `if (avctx->width & 1) return AVERROR(EINVAL);`. -/
def encode_init (width : Nat) : InitResult :=
  if width &&& 1 ≠ 0 then InitResult.einval else InitResult.ok

/-- Chroma state at the start of row `h` of the 8-bit frame loop. -/
def iterState (f : Frame) : Nat → ChromaState
  | 0 => ⟨0, 0, 0, 0⟩
  | h + 1 =>
      chromaAdvance f.lsU f.lsV
        (chromaAdjust f.fmt420 f.interlaced h (iterState f h))

/-- Chroma offsets actually used to encode row `h`. -/
def chromaUsed (f : Frame) (h : Nat) : ChromaState :=
  chromaAdjust f.fmt420 f.interlaced h (iterState f h)

/-- Row `h` of the encoded frame, as a stride-sized byte slice. -/
def frameRow (f : Frame) (h : Nat) : List Nat :=
  ((encode_frame8 f).drop (h * stride f.width)).take (stride f.width)

/-- Low 10-bit field of a packed word (conceptual unpacking). -/
def field0 (w : Nat) : Nat := w % 1024

/-- Middle 10-bit field of a packed word (conceptual unpacking). -/
def field1 (w : Nat) : Nat := w / 1024 % 1024

/-- High 10-bit field of a packed word (conceptual unpacking). -/
def field2 (w : Nat) : Nat := w / 1048576 % 1024

/-- Conceptual unpacking of one row of v210 words back into (Y, U, V)
sample lists, following the §4.1 slot layout: four words per 6 luma
samples, then the remainder words of a width ≡ 2 or 4 (mod 6) row. -/
def unpackRow10 : List Nat → Nat → List Nat × List Nat × List Nat
  | ws, width + 6 =>
      (field1 (nth ws 0) :: field0 (nth ws 1) :: field2 (nth ws 1) ::
         field1 (nth ws 2) :: field0 (nth ws 3) :: field2 (nth ws 3) ::
         (unpackRow10 (ws.drop 4) width).1,
       field0 (nth ws 0) :: field1 (nth ws 1) :: field2 (nth ws 2) ::
         (unpackRow10 (ws.drop 4) width).2.1,
       field2 (nth ws 0) :: field0 (nth ws 2) :: field1 (nth ws 3) ::
         (unpackRow10 (ws.drop 4) width).2.2)
  | ws, r =>
      if r = 4 then
        ([field1 (nth ws 0), field0 (nth ws 1), field2 (nth ws 1),
          field1 (nth ws 2)],
         [field0 (nth ws 0), field1 (nth ws 1)],
         [field2 (nth ws 0), field0 (nth ws 2)])
      else if r = 2 then
        ([field1 (nth ws 0), field0 (nth ws 1)],
         [field0 (nth ws 0)], [field2 (nth ws 0)])
      else ([], [], [])

/-- Conceptual unpacking for the 8-bit path: each recovered 10-bit field is
shifted back down by 2 to the original 8-bit sample. -/
def unpackRow8 (ws : List Nat) (width : Nat) :
    List Nat × List Nat × List Nat :=
  ((unpackRow10 ws width).1.map (· / 4),
   (unpackRow10 ws width).2.1.map (· / 4),
   (unpackRow10 ws width).2.2.map (· / 4))

/-- Example 4:2:0 interlaced frame: 4 x 4, constant luma 100, chroma plane
rows (10,10)/(20,20) for U and (30,30)/(40,40) for V. -/
def exFrame420i : Frame :=
  ⟨List.replicate 16 100, [10, 10, 20, 20], [30, 30, 40, 40],
   4, 2, 2, 4, 4, true, true⟩

/-! ### Arithmetic infrastructure -/

theorem pack10_unfold (y u v : List Nat) (width : Nat) (h : 6 ≤ width) :
    v210_planar_pack_10_c y u v width =
      pack10Group y u v ++
        v210_planar_pack_10_c (y.drop 6) (u.drop 3) (v.drop 3) (width - 6) := by
  obtain ⟨w, rfl⟩ : ∃ w, width = w + 6 := ⟨width - 6, by omega⟩
  simp [v210_planar_pack_10_c]

theorem pack10_nil (y u v : List Nat) (width : Nat) (h : width < 6) :
    v210_planar_pack_10_c y u v width = [] := by
  interval_cases width <;> rfl

theorem pack8_unfold (y u v : List Nat) (width : Nat) (h : 12 ≤ width) :
    v210_planar_pack_8_c y u v width =
      pack8Group y u v ++ pack8Group (y.drop 6) (u.drop 3) (v.drop 3) ++
        v210_planar_pack_8_c (y.drop 12) (u.drop 6) (v.drop 6) (width - 12) := by
  obtain ⟨w, rfl⟩ : ∃ w, width = w + 12 := ⟨width - 12, by omega⟩
  simp [v210_planar_pack_8_c]

theorem pack8_nil (y u v : List Nat) (width : Nat) (h : width < 12) :
    v210_planar_pack_8_c y u v width = [] := by
  interval_cases width <;> rfl

theorem tail10_unfold (y u v : List Nat) (r : Nat) (h : 6 ≤ r) :
    tail10 y u v r =
      pack10Group y u v ++ tail10 (y.drop 6) (u.drop 3) (v.drop 3) (r - 6) := by
  obtain ⟨w, rfl⟩ : ∃ w, r = w + 6 := ⟨r - 6, by omega⟩
  simp [tail10]

theorem tail10_rem (y u v : List Nat) (r : Nat) (h : r < 6) :
    tail10 y u v r = tailRem10 y u v r := by
  interval_cases r <;> rfl

theorem tail8_unfold (y u v : List Nat) (r : Nat) (h : 6 ≤ r) :
    tail8 y u v r =
      pack8Group y u v ++ tail8 (y.drop 6) (u.drop 3) (v.drop 3) (r - 6) := by
  obtain ⟨w, rfl⟩ : ∃ w, r = w + 6 := ⟨r - 6, by omega⟩
  simp [tail8]

theorem tail8_rem (y u v : List Nat) (r : Nat) (h : r < 6) :
    tail8 y u v r = tailRem8 y u v r := by
  interval_cases r <;> rfl

theorem CLIP_le (v : Nat) : CLIP v ≤ 1019 := by
  simp only [CLIP]; omega

theorem CLIP_ge (v : Nat) : 4 ≤ CLIP v := by
  simp only [CLIP]; omega

theorem CLIP_of_mem (v : Nat) (h1 : 4 ≤ v) (h2 : v ≤ 1019) : CLIP v = v := by
  simp only [CLIP]; omega

theorem CLIP8_le (v : Nat) : CLIP8 v ≤ 254 := by
  simp only [CLIP8]; omega

theorem CLIP8_ge (v : Nat) : 1 ≤ CLIP8 v := by
  simp only [CLIP8]; omega

theorem CLIP8_of_mem (v : Nat) (h1 : 1 ≤ v) (h2 : v ≤ 254) : CLIP8 v = v := by
  simp only [CLIP8]; omega

/-- Bitwise or of a low part and a shifted high part is plain addition. -/
theorem or_shiftLeft_eq_add (a b k : Nat) (h : a < 2 ^ k) :
    a ||| (b <<< k) = a + 2 ^ k * b := by
  rw [Nat.shiftLeft_eq, Nat.or_comm, mul_comm, Nat.add_comm]
  exact (Nat.mul_add_lt_is_or h b).symm

/-- Value of a WRITE_PIXELS word as plain arithmetic. -/
theorem writePixels_val (a b c : Nat) :
    writePixels a b c = CLIP a + 1024 * CLIP b + 1048576 * CLIP c := by
  have h1 : CLIP a < 2 ^ 10 := lt_of_le_of_lt (CLIP_le a) (by norm_num)
  have h2 : CLIP a + 2 ^ 10 * CLIP b < 2 ^ 20 := by
    have := CLIP_le a; have := CLIP_le b; omega
  simp only [writePixels, or_shiftLeft_eq_add _ _ 10 h1,
    or_shiftLeft_eq_add _ _ 20 h2]
  norm_num

/-- Value of the partial tail word `CLIP v | CLIP y << 10`. -/
theorem tailWord_val (a b : Nat) :
    CLIP a ||| (CLIP b <<< 10) = CLIP a + 1024 * CLIP b := by
  have h1 : CLIP a < 2 ^ 10 := lt_of_le_of_lt (CLIP_le a) (by norm_num)
  simp only [or_shiftLeft_eq_add _ _ 10 h1]
  norm_num

/-- Value of a WRITE_PIXELS8 word as plain arithmetic. -/
theorem writePixels8_val (a b c : Nat) :
    writePixels8 a b c = 4 * CLIP8 a + 4096 * CLIP8 b + 4194304 * CLIP8 c := by
  have e2 : CLIP8 a <<< 2 = 4 * CLIP8 a := by
    rw [Nat.shiftLeft_eq]; ring
  have h1 : 4 * CLIP8 a < 2 ^ 12 := by have := CLIP8_le a; omega
  have h2 : 4 * CLIP8 a + 2 ^ 12 * CLIP8 b < 2 ^ 22 := by
    have := CLIP8_le a; have := CLIP8_le b; omega
  simp only [writePixels8, e2, or_shiftLeft_eq_add _ _ 12 h1,
    or_shiftLeft_eq_add _ _ 22 h2]
  norm_num

/-- Value of the partial 8-bit tail word. -/
theorem tailWord8_val (a b : Nat) :
    (CLIP8 a <<< 2) ||| (CLIP8 b <<< 12) = 4 * CLIP8 a + 4096 * CLIP8 b := by
  have e2 : CLIP8 a <<< 2 = 4 * CLIP8 a := by
    rw [Nat.shiftLeft_eq]; ring
  have h1 : 4 * CLIP8 a < 2 ^ 12 := by have := CLIP8_le a; omega
  simp only [e2, or_shiftLeft_eq_add _ _ 12 h1]
  norm_num

/-- Every word emitted by the 10-bit bulk packer is a WRITE_PIXELS word. -/
theorem pack10_mem (width : Nat) :
    ∀ y u v w, w ∈ v210_planar_pack_10_c y u v width →
      ∃ a b c, w = writePixels a b c := by
  induction width using Nat.strong_induction_on with
  | _ width ih =>
    intro y u v w hw
    by_cases h6 : 6 ≤ width
    · rw [pack10_unfold _ _ _ _ h6] at hw
      simp only [List.mem_append] at hw
      rcases hw with hw | hw
      · simp only [pack10Group, List.mem_cons, List.mem_singleton,
          List.not_mem_nil, or_false] at hw
        rcases hw with rfl | rfl | rfl | rfl
        · exact ⟨_, _, _, rfl⟩
        · exact ⟨_, _, _, rfl⟩
        · exact ⟨_, _, _, rfl⟩
        · exact ⟨_, _, _, rfl⟩
      · exact ih (width - 6) (by omega) _ _ _ _ hw
    · rw [pack10_nil _ _ _ _ (by omega)] at hw
      simp at hw

/-- Every word emitted by the 8-bit bulk packer is a WRITE_PIXELS8 word. -/
theorem pack8_mem (width : Nat) :
    ∀ y u v w, w ∈ v210_planar_pack_8_c y u v width →
      ∃ a b c, w = writePixels8 a b c := by
  induction width using Nat.strong_induction_on with
  | _ width ih =>
    intro y u v w hw
    by_cases h12 : 12 ≤ width
    · rw [pack8_unfold _ _ _ _ h12] at hw
      simp only [List.mem_append] at hw
      rcases hw with (hw | hw) | hw
      · simp only [pack8Group, List.mem_cons, List.mem_singleton,
          List.not_mem_nil, or_false] at hw
        rcases hw with rfl | rfl | rfl | rfl
        · exact ⟨_, _, _, rfl⟩
        · exact ⟨_, _, _, rfl⟩
        · exact ⟨_, _, _, rfl⟩
        · exact ⟨_, _, _, rfl⟩
      · simp only [pack8Group, List.mem_cons, List.mem_singleton,
          List.not_mem_nil, or_false] at hw
        rcases hw with rfl | rfl | rfl | rfl
        · exact ⟨_, _, _, rfl⟩
        · exact ⟨_, _, _, rfl⟩
        · exact ⟨_, _, _, rfl⟩
        · exact ⟨_, _, _, rfl⟩
      · exact ih (width - 12) (by omega) _ _ _ _ hw
    · rw [pack8_nil _ _ _ _ (by omega)] at hw
      simp at hw

theorem pack10_length (width : Nat) :
    ∀ y u v, (v210_planar_pack_10_c y u v width).length = width / 6 * 4 := by
  induction width using Nat.strong_induction_on with
  | _ width ih =>
    intro y u v
    by_cases h6 : 6 ≤ width
    · rw [pack10_unfold _ _ _ _ h6]
      simp only [List.length_append, ih (width - 6) (by omega)]
      simp only [pack10Group, List.length_cons, List.length_nil]
      omega
    · rw [pack10_nil _ _ _ _ (by omega)]
      simp only [List.length_nil]
      omega

theorem pack8_length (width : Nat) :
    ∀ y u v, (v210_planar_pack_8_c y u v width).length = width / 12 * 8 := by
  induction width using Nat.strong_induction_on with
  | _ width ih =>
    intro y u v
    by_cases h12 : 12 ≤ width
    · rw [pack8_unfold _ _ _ _ h12]
      simp only [List.length_append, ih (width - 12) (by omega)]
      simp only [pack8Group, List.length_cons, List.length_nil]
      omega
    · rw [pack8_nil _ _ _ _ (by omega)]
      simp only [List.length_nil]
      omega

theorem flatMap_wl32_length (ws : List Nat) :
    (ws.flatMap AV_WL32).length = 4 * ws.length := by
  induction ws with
  | nil => rfl
  | cons w ws ih =>
    simp only [List.flatMap_cons, List.length_append, ih, AV_WL32,
      List.length_cons, List.length_nil]
    omega

theorem nth_drop (l : List Nat) (n i : Nat) : nth (l.drop n) i = nth l (n + i) := by
  simp only [nth, List.getD_eq_getElem?_getD, List.getElem?_drop]

theorem nth_append (l l' : List Nat) (i : Nat) (h : i < l.length) :
    nth (l ++ l') i = nth l i := by
  simp only [nth, List.getD_eq_getElem?_getD, List.getElem?_append_left h]

theorem pack10_prefix (n : Nat) :
    ∀ y u v y2 u2 v2 : List Nat, y.length = 6 * n → u.length = 3 * n →
      v.length = 3 * n →
      v210_planar_pack_10_c (y ++ y2) (u ++ u2) (v ++ v2) (6 * n) =
        v210_planar_pack_10_c y u v (6 * n) := by
  induction n with
  | zero =>
    intro y u v y2 u2 v2 hy hu hv
    rfl
  | succ n ih =>
    intro y u v y2 u2 v2 hy hu hv
    have h6 : 6 ≤ 6 * (n + 1) := by omega
    rw [pack10_unfold _ _ _ _ h6, pack10_unfold y u v _ h6]
    have hg : pack10Group (y ++ y2) (u ++ u2) (v ++ v2) = pack10Group y u v := by
      simp only [pack10Group]
      rw [nth_append y y2 0 (by omega), nth_append y y2 1 (by omega),
        nth_append y y2 2 (by omega), nth_append y y2 3 (by omega),
        nth_append y y2 4 (by omega), nth_append y y2 5 (by omega),
        nth_append u u2 0 (by omega), nth_append u u2 1 (by omega),
        nth_append u u2 2 (by omega), nth_append v v2 0 (by omega),
        nth_append v v2 1 (by omega), nth_append v v2 2 (by omega)]
    rw [hg, List.drop_append_of_le_length (by omega),
      List.drop_append_of_le_length (by omega),
      List.drop_append_of_le_length (by omega)]
    have e : 6 * (n + 1) - 6 = 6 * n := by omega
    rw [e]
    congr 1
    exact ih (y.drop 6) (u.drop 3) (v.drop 3) y2 u2 v2
      (by simp only [List.length_drop, hy]; omega)
      (by simp only [List.length_drop, hu]; omega)
      (by simp only [List.length_drop, hv]; omega)

theorem pack8_prefix (m : Nat) :
    ∀ y u v y2 u2 v2 : List Nat, y.length = 12 * m → u.length = 6 * m →
      v.length = 6 * m →
      v210_planar_pack_8_c (y ++ y2) (u ++ u2) (v ++ v2) (12 * m) =
        v210_planar_pack_8_c y u v (12 * m) := by
  induction m with
  | zero =>
    intro y u v y2 u2 v2 hy hu hv
    rfl
  | succ m ih =>
    intro y u v y2 u2 v2 hy hu hv
    have h12 : 12 ≤ 12 * (m + 1) := by omega
    rw [pack8_unfold _ _ _ _ h12, pack8_unfold y u v _ h12]
    have hg1 : pack8Group (y ++ y2) (u ++ u2) (v ++ v2) = pack8Group y u v := by
      simp only [pack8Group]
      rw [nth_append y y2 0 (by omega), nth_append y y2 1 (by omega),
        nth_append y y2 2 (by omega), nth_append y y2 3 (by omega),
        nth_append y y2 4 (by omega), nth_append y y2 5 (by omega),
        nth_append u u2 0 (by omega), nth_append u u2 1 (by omega),
        nth_append u u2 2 (by omega), nth_append v v2 0 (by omega),
        nth_append v v2 1 (by omega), nth_append v v2 2 (by omega)]
    have hg2 : pack8Group ((y ++ y2).drop 6) ((u ++ u2).drop 3) ((v ++ v2).drop 3) =
        pack8Group (y.drop 6) (u.drop 3) (v.drop 3) := by
      have dy : (y ++ y2).drop 6 = y.drop 6 ++ y2 :=
        List.drop_append_of_le_length (by omega)
      have du : (u ++ u2).drop 3 = u.drop 3 ++ u2 :=
        List.drop_append_of_le_length (by omega)
      have dv : (v ++ v2).drop 3 = v.drop 3 ++ v2 :=
        List.drop_append_of_le_length (by omega)
      rw [dy, du, dv]
      simp only [pack8Group]
      rw [nth_append (y.drop 6) y2 0 (by simp; omega),
        nth_append (y.drop 6) y2 1 (by simp; omega),
        nth_append (y.drop 6) y2 2 (by simp; omega),
        nth_append (y.drop 6) y2 3 (by simp; omega),
        nth_append (y.drop 6) y2 4 (by simp; omega),
        nth_append (y.drop 6) y2 5 (by simp; omega),
        nth_append (u.drop 3) u2 0 (by simp; omega),
        nth_append (u.drop 3) u2 1 (by simp; omega),
        nth_append (u.drop 3) u2 2 (by simp; omega),
        nth_append (v.drop 3) v2 0 (by simp; omega),
        nth_append (v.drop 3) v2 1 (by simp; omega),
        nth_append (v.drop 3) v2 2 (by simp; omega)]
    have dy12 : (y ++ y2).drop 12 = y.drop 12 ++ y2 :=
      List.drop_append_of_le_length (by omega)
    have du6 : (u ++ u2).drop 6 = u.drop 6 ++ u2 :=
      List.drop_append_of_le_length (by omega)
    have dv6 : (v ++ v2).drop 6 = v.drop 6 ++ v2 :=
      List.drop_append_of_le_length (by omega)
    rw [hg1, hg2, dy12, du6, dv6]
    have e : 12 * (m + 1) - 12 = 12 * m := by omega
    rw [e]
    congr 1
    exact ih (y.drop 12) (u.drop 6) (v.drop 6) y2 u2 v2
      (by simp only [List.length_drop, hy]; omega)
      (by simp only [List.length_drop, hu]; omega)
      (by simp only [List.length_drop, hv]; omega)

/-! ### Claim theorems -/

/-- C2: for every group of 6 consecutive 10-bit samples (6 Y, 3 U, 3 V) the
encoder emits exactly four words, word 1 = clip(U)|clip(Y)<<10|clip(V)<<20,
word 2 = clip(Y)|clip(U)<<10|clip(Y)<<20, word 3 = clip(V)|clip(Y)<<10|
clip(U)<<20, word 4 = clip(Y)|clip(V)<<10|clip(Y)<<20, consuming the
samples in order, and bits 30-31 of every emitted word are zero. -/
theorem c2_group_layout :
    (∀ y0 y1 y2 y3 y4 y5 u0 u1 u2 v0 v1 v2 : Nat,
      v210_planar_pack_10_c [y0, y1, y2, y3, y4, y5] [u0, u1, u2] [v0, v1, v2] 6 =
        [ CLIP u0 ||| (CLIP y0 <<< 10) ||| (CLIP v0 <<< 20),
          CLIP y1 ||| (CLIP u1 <<< 10) ||| (CLIP y2 <<< 20),
          CLIP v1 ||| (CLIP y3 <<< 10) ||| (CLIP u2 <<< 20),
          CLIP y4 ||| (CLIP v2 <<< 10) ||| (CLIP y5 <<< 20) ]) ∧
    (∀ y u v width w, w ∈ v210_planar_pack_10_c y u v width → w >>> 30 = 0) := by
  constructor
  · intro y0 y1 y2 y3 y4 y5 u0 u1 u2 v0 v1 v2
    rfl
  · intro y u v width w hw
    obtain ⟨a, b, c, rfl⟩ := pack10_mem width y u v w hw
    rw [writePixels_val]
    have := CLIP_le a; have := CLIP_le b; have := CLIP_le c
    rw [Nat.shiftRight_eq_div_pow]
    omega

/-- C6: every 10-bit field of a word emitted by the 10-bit bulk packer lies
in [4,1019] (clip(v) = max(4, min(1019, v)) itself always lands there), and
every field of an 8-bit-path word equals clip8(s)<<2 with clip8(s) in
[1,254], so its low 2 bits are zero; clipping is total, so out-of-range
input is clamped, never an error. -/
theorem c6_clamping :
    (∀ v, 4 ≤ CLIP v ∧ CLIP v ≤ 1019) ∧
    (∀ y u v width w, w ∈ v210_planar_pack_10_c y u v width →
      (4 ≤ w % 1024 ∧ w % 1024 ≤ 1019) ∧
      (4 ≤ w / 1024 % 1024 ∧ w / 1024 % 1024 ≤ 1019) ∧
      (4 ≤ w / 1048576 ∧ w / 1048576 ≤ 1019)) ∧
    (∀ v, 1 ≤ CLIP8 v ∧ CLIP8 v ≤ 254) ∧
    (∀ y u v width w, w ∈ v210_planar_pack_8_c y u v width →
      ∃ a b c, 1 ≤ a ∧ a ≤ 254 ∧ 1 ≤ b ∧ b ≤ 254 ∧ 1 ≤ c ∧ c ≤ 254 ∧
        w % 1024 = 4 * a ∧ w / 1024 % 1024 = 4 * b ∧ w / 1048576 = 4 * c) := by
  refine ⟨fun v => ⟨CLIP_ge v, CLIP_le v⟩, ?_, fun v => ⟨CLIP8_ge v, CLIP8_le v⟩, ?_⟩
  · intro y u v width w hw
    obtain ⟨a, b, c, rfl⟩ := pack10_mem width y u v w hw
    rw [writePixels_val]
    have := CLIP_le a; have := CLIP_le b; have := CLIP_le c
    have := CLIP_ge a; have := CLIP_ge b; have := CLIP_ge c
    omega
  · intro y u v width w hw
    obtain ⟨a, b, c, rfl⟩ := pack8_mem width y u v w hw
    refine ⟨CLIP8 a, CLIP8 b, CLIP8 c, CLIP8_ge a, CLIP8_le a, CLIP8_ge b,
      CLIP8_le b, CLIP8_ge c, CLIP8_le c, ?_, ?_, ?_⟩ <;>
    · rw [writePixels8_val]
      have := CLIP8_le a; have := CLIP8_le b; have := CLIP8_le c
      omega

/-- C8: encode_init rejects a configuration with AVERROR(EINVAL) exactly
when the width is odd, and succeeds exactly when the width is even; the
check is a pure function of the configured width, evaluated at setup. -/
theorem c8_init_width_check (width : Nat) :
    (encode_init width = InitResult.einval ↔ width % 2 = 1) ∧
    (encode_init width = InitResult.ok ↔ width % 2 = 0) := by
  simp only [encode_init, Nat.and_one_is_mod]
  by_cases h : width % 2 = 1
  · simp [h]
  · have h0 : width % 2 = 0 := by omega
    simp [h0]

theorem getLast_append_two (l : List Nat) (a b : Nat) :
    (l ++ [a, b]).getLast? = some b := by
  rw [show l ++ [a, b] = (l ++ [a]) ++ [b] by simp]
  exact List.getLast?_concat _

/-- C4 as stated is false: the 10-bit bulk packer run over one group of
6 samples writes 16 output bytes (4 words), not 6/6*4 = 4 bytes. -/
theorem c4_counterexample :
    ((v210_planar_pack_10_c [4, 4, 4, 4, 4, 4] [4, 4, 4] [4, 4, 4]
        6).flatMap AV_WL32).length = 16 ∧ ¬ (16 : Nat) = 6 / 6 * 4 := by
  constructor
  · rw [pack10_unfold _ _ _ _ (by norm_num), pack10_nil _ _ _ _ (by norm_num)]
    rfl
  · decide

/-- C4 (amended): for every sample count that is a multiple of the group
size (6 for the 10-bit path, 12 for the 8-bit unrolled path) the bulk
packer emits exactly count/6 * 4 output words, i.e. count/6 * 16 output
bytes (count/12 * 32 for the 8-bit path), and reads exactly the first
count luma and count/2 chroma samples of each plane (the pointers advance
past exactly the consumed samples). -/
theorem c4_bulk_contract :
    (∀ n y u v, (v210_planar_pack_10_c y u v (6 * n)).length = 6 * n / 6 * 4 ∧
      ((v210_planar_pack_10_c y u v (6 * n)).flatMap AV_WL32).length =
        6 * n / 6 * 16) ∧
    (∀ m y u v, (v210_planar_pack_8_c y u v (12 * m)).length = 12 * m / 12 * 8 ∧
      ((v210_planar_pack_8_c y u v (12 * m)).flatMap AV_WL32).length =
        12 * m / 12 * 32) ∧
    (∀ n (y u v y2 u2 v2 : List Nat), y.length = 6 * n → u.length = 3 * n →
      v.length = 3 * n →
      v210_planar_pack_10_c (y ++ y2) (u ++ u2) (v ++ v2) (6 * n) =
        v210_planar_pack_10_c y u v (6 * n)) ∧
    (∀ m (y u v y2 u2 v2 : List Nat), y.length = 12 * m → u.length = 6 * m →
      v.length = 6 * m →
      v210_planar_pack_8_c (y ++ y2) (u ++ u2) (v ++ v2) (12 * m) =
        v210_planar_pack_8_c y u v (12 * m)) := by
  refine ⟨?_, ?_, pack10_prefix, pack8_prefix⟩
  · intro n y u v
    rw [flatMap_wl32_length, pack10_length]
    omega
  · intro m y u v
    rw [flatMap_wl32_length, pack8_length]
    omega

theorem c4_bulk_contract_witness :
    v210_planar_pack_10_c ([1, 2, 3, 4, 5, 6] ++ [99]) ([7, 8, 9] ++ [98])
        ([10, 11, 12] ++ [97]) (6 * 1) =
      v210_planar_pack_10_c [1, 2, 3, 4, 5, 6] [7, 8, 9] [10, 11, 12] (6 * 1) :=
  c4_bulk_contract.2.2.1 1 [1, 2, 3, 4, 5, 6] [7, 8, 9] [10, 11, 12]
    [99] [98] [97] (by decide) (by decide) (by decide)

/-- C10: for every width ≡ 2 (mod 6), the last content word of an output
line is exactly the final clipped luma sample of the row in bits 0-9, with
bits 10-31 zero, on both the 10-bit and the 8-bit path. -/
theorem c10_trailing_word (y u v : List Nat) (width : Nat)
    (h : width % 6 = 2) :
    (encodeRow10 y u v width).getLast? = some (CLIP (nth y (width - 1))) ∧
    CLIP (nth y (width - 1)) < 1024 ∧
    (encodeRow8 y u v width).getLast? = some (CLIP8 (nth y (width - 1)) <<< 2) ∧
    CLIP8 (nth y (width - 1)) <<< 2 < 1024 := by
  have hb8 : CLIP8 (nth y (width - 1)) <<< 2 < 1024 := by
    rw [Nat.shiftLeft_eq]
    have := CLIP8_le (nth y (width - 1))
    omega
  refine ⟨?_, by have := CLIP_le (nth y (width - 1)); omega, ?_, hb8⟩
  · have hr : width - width / 6 * 6 = 2 := by omega
    rw [encodeRow10, hr, tail10_rem _ _ _ 2 (by omega)]
    have : tailRem10 (y.drop (width / 6 * 6)) (u.drop (width / 6 * 6 / 2))
        (v.drop (width / 6 * 6 / 2)) 2 =
        [writePixels (nth (u.drop (width / 6 * 6 / 2)) 0)
           (nth (y.drop (width / 6 * 6)) 0)
           (nth (v.drop (width / 6 * 6 / 2)) 0),
         CLIP (nth (y.drop (width / 6 * 6)) 1)] := by
      simp [tailRem10]
    rw [this, getLast_append_two, nth_drop]
    have e : width / 6 * 6 + 1 = width - 1 := by omega
    rw [e]
  · have h12 : width % 12 = 2 ∨ width % 12 = 8 := by omega
    rcases h12 with h12 | h12
    · have hr : width - width / 12 * 12 = 2 := by omega
      rw [encodeRow8, hr, tail8_rem _ _ _ 2 (by omega)]
      have : tailRem8 (y.drop (width / 12 * 12)) (u.drop (width / 12 * 12 / 2))
          (v.drop (width / 12 * 12 / 2)) 2 =
          [writePixels8 (nth (u.drop (width / 12 * 12 / 2)) 0)
             (nth (y.drop (width / 12 * 12)) 0)
             (nth (v.drop (width / 12 * 12 / 2)) 0),
           CLIP8 (nth (y.drop (width / 12 * 12)) 1) <<< 2] := by
        simp [tailRem8]
      rw [this, getLast_append_two, nth_drop]
      have e : width / 12 * 12 + 1 = width - 1 := by omega
      rw [e]
    · have hr : width - width / 12 * 12 = 8 := by omega
      rw [encodeRow8, hr, tail8_unfold _ _ _ 8 (by omega),
        tail8_rem _ _ _ (8 - 6) (by omega)]
      have : tailRem8 ((y.drop (width / 12 * 12)).drop 6)
          ((u.drop (width / 12 * 12 / 2)).drop 3)
          ((v.drop (width / 12 * 12 / 2)).drop 3) (8 - 6) =
          [writePixels8 (nth ((u.drop (width / 12 * 12 / 2)).drop 3) 0)
             (nth ((y.drop (width / 12 * 12)).drop 6) 0)
             (nth ((v.drop (width / 12 * 12 / 2)).drop 3) 0),
           CLIP8 (nth ((y.drop (width / 12 * 12)).drop 6) 1) <<< 2] := by
        simp [tailRem8]
      rw [this, ← List.append_assoc, getLast_append_two, nth_drop, nth_drop]
      have e : width / 12 * 12 + (6 + 1) = width - 1 := by omega
      rw [e]

theorem c10_trailing_word_witness :
    (2 : Nat) % 6 = 2 ∧
    ((encodeRow10 [5, 6] [7] [9] 2).getLast? = some (CLIP (nth [5, 6] (2 - 1))) ∧
     CLIP (nth [5, 6] (2 - 1)) < 1024 ∧
     (encodeRow8 [5, 6] [7] [9] 2).getLast? =
       some (CLIP8 (nth [5, 6] (2 - 1)) <<< 2) ∧
     CLIP8 (nth [5, 6] (2 - 1)) <<< 2 < 1024) :=
  ⟨by decide, c10_trailing_word [5, 6] [7] [9] 2 (by decide)⟩

theorem tailRem10_length (y u v : List Nat) (r : Nat) (he : r % 2 = 0)
    (h : r < 6) :
    (tailRem10 y u v r).length = if r = 2 then 2 else if r = 4 then 3 else 0 := by
  have : r = 0 ∨ r = 2 ∨ r = 4 := by omega
  rcases this with rfl | rfl | rfl <;> simp [tailRem10]

theorem tailRem8_length (y u v : List Nat) (r : Nat) (he : r % 2 = 0)
    (h : r < 6) :
    (tailRem8 y u v r).length = if r = 2 then 2 else if r = 4 then 3 else 0 := by
  have : r = 0 ∨ r = 2 ∨ r = 4 := by omega
  rcases this with rfl | rfl | rfl <;> simp [tailRem8]

/-- Word count of one 10-bit row: exactly (width*8 + 11)/12 content words
for every even width. -/
theorem row10_length (y u v : List Nat) (width : Nat) (hw : width % 2 = 0) :
    (encodeRow10 y u v width).length = (width * 8 + 11) / 12 := by
  rw [encodeRow10, List.length_append, pack10_length,
    tail10_rem _ _ _ _ (by omega),
    tailRem10_length _ _ _ _ (by omega) (by omega)]
  rcases (by omega : width % 6 = 0 ∨ width % 6 = 2 ∨ width % 6 = 4) with h | h | h
  · rw [if_neg (by omega), if_neg (by omega)]
    omega
  · rw [if_pos (by omega)]
    omega
  · rw [if_neg (by omega), if_pos (by omega)]
    omega

/-- Word count of one 8-bit row: exactly (width*8 + 11)/12 content words
for every even width. -/
theorem row8_length (y u v : List Nat) (width : Nat) (hw : width % 2 = 0) :
    (encodeRow8 y u v width).length = (width * 8 + 11) / 12 := by
  rw [encodeRow8, List.length_append, pack8_length]
  by_cases h6 : width - width / 12 * 12 < 6
  · rw [tail8_rem _ _ _ _ h6, tailRem8_length _ _ _ _ (by omega) (by omega)]
    rcases (by omega : width % 12 = 0 ∨ width % 12 = 2 ∨ width % 12 = 4)
      with h | h | h
    · rw [if_neg (by omega), if_neg (by omega)]
      omega
    · rw [if_pos (by omega)]
      omega
    · rw [if_neg (by omega), if_pos (by omega)]
      omega
  · rw [tail8_unfold _ _ _ _ (by omega), List.length_append,
      tail8_rem _ _ _ _ (by omega),
      tailRem8_length _ _ _ _ (by omega) (by omega)]
    simp only [pack8Group, List.length_cons, List.length_nil]
    rcases (by omega : width % 12 = 6 ∨ width % 12 = 8 ∨ width % 12 = 10)
      with h | h | h
    · rw [if_neg (by omega), if_neg (by omega)]
      omega
    · rw [if_pos (by omega)]
      omega
    · rw [if_neg (by omega), if_pos (by omega)]
      omega

/-- Byte count of one output line: always exactly `stride width` bytes for
an even width. -/
theorem lineBytes_length (ws : List Nat) (width : Nat)
    (h : ws.length = (width * 8 + 11) / 12) :
    (lineBytes ws width).length = stride width := by
  rw [lineBytes, List.length_append, flatMap_wl32_length,
    List.length_replicate, h, line_padding, stride, aligned_width]
  omega

/-- C3 as stated is false at width 4: the claim predicts that at remainder
4 the encoder emits a partial word holding only U and Y with the V slot
empty (deferred); in fact no word of the encoded row has that content —
the first extra word is a complete (U,Y,V) word and the deferred partial
value holds only a luma sample. -/
theorem c3_counterexample :
    ¬ (CLIP 10 ||| (CLIP 100 <<< 10)) ∈
      encodeRow10 [100, 200, 300, 400] [10, 20] [30, 40] 4 := by
  rw [encodeRow10, pack10_nil _ _ _ _ (by norm_num),
    tail10_rem _ _ _ _ (by norm_num)]
  decide

theorem stride_sub_padding (width : Nat) :
    stride width - line_padding width = (width * 8 + 11) / 12 * 4 := by
  rw [line_padding, stride, aligned_width]
  omega

theorem getD_replicate_zero (n i : Nat) :
    (List.replicate n (0 : Nat)).getD i 0 = 0 := by
  rcases Nat.lt_or_ge i n with h | h
  · rw [List.getD_eq_getElem _ _ (by simpa using h)]
    simp
  · rw [List.getD_eq_default]
    simpa using h

theorem rows10_length (f : Frame) (hw : f.width % 2 = 0) :
    ∀ n oy ou ov, (encodeRows10 f n oy ou ov).length = n * stride f.width := by
  intro n
  induction n with
  | zero => intro oy ou ov; simp [encodeRows10]
  | succ n ih =>
    intro oy ou ov
    simp only [encodeRows10, List.length_append, ih,
      lineBytes_length _ _ (row10_length _ _ _ _ hw)]
    ring

theorem rows8_length (f : Frame) (hw : f.width % 2 = 0) :
    ∀ n h oy s, (encodeRows8 f n h oy s).length = n * stride f.width := by
  intro n
  induction n with
  | zero => intro h oy s; simp [encodeRows8]
  | succ n ih =>
    intro h oy s
    simp only [encodeRows8, rowBytesAt, List.length_append, ih,
      lineBytes_length _ _ (row8_length _ _ _ _ hw)]
    ring

theorem rows10_pad (f : Frame) (hw : f.width % 2 = 0) :
    ∀ n oy ou ov h j, h < n → stride f.width - line_padding f.width ≤ j →
      j < stride f.width →
      (encodeRows10 f n oy ou ov).getD (h * stride f.width + j) 0 = 0 := by
  intro n
  induction n with
  | zero => intro oy ou ov h j hh hj1 hj2; omega
  | succ n ih =>
    intro oy ou ov h j hh hj1 hj2
    simp only [encodeRows10]
    have hlen : (lineBytes (encodeRow10 (f.yP.drop oy) (f.uP.drop ou)
        (f.vP.drop ov) f.width) f.width).length = stride f.width :=
      lineBytes_length _ _ (row10_length _ _ _ _ hw)
    rcases h with _ | h
    · rw [Nat.zero_mul, Nat.zero_add,
        List.getD_append _ _ _ _ (by rw [hlen]; exact hj2), lineBytes]
      have hcl : ((encodeRow10 (f.yP.drop oy) (f.uP.drop ou) (f.vP.drop ov)
          f.width).flatMap AV_WL32).length = (f.width * 8 + 11) / 12 * 4 := by
        rw [flatMap_wl32_length, row10_length _ _ _ _ hw]
        ring
      rw [List.getD_append_right _ _ _ _
        (by rw [hcl]; have := stride_sub_padding f.width; omega)]
      exact getD_replicate_zero _ _
    · have e : (h + 1) * stride f.width + j =
          stride f.width + (h * stride f.width + j) := by ring
      rw [e, List.getD_append_right _ _ _ _ (by rw [hlen]; omega), hlen,
        Nat.add_sub_cancel_left]
      exact ih _ _ _ h j (by omega) hj1 hj2

theorem rows8_pad (f : Frame) (hw : f.width % 2 = 0) :
    ∀ n hr oy s h j, h < n → stride f.width - line_padding f.width ≤ j →
      j < stride f.width →
      (encodeRows8 f n hr oy s).getD (h * stride f.width + j) 0 = 0 := by
  intro n
  induction n with
  | zero => intro hr oy s h j hh hj1 hj2; omega
  | succ n ih =>
    intro hr oy s h j hh hj1 hj2
    simp only [encodeRows8, rowBytesAt]
    have hlen : ∀ ou ov : Nat, (lineBytes (encodeRow8 (f.yP.drop oy)
        (f.uP.drop ou) (f.vP.drop ov) f.width) f.width).length =
        stride f.width := fun ou ov =>
      lineBytes_length _ _ (row8_length _ _ _ _ hw)
    rcases h with _ | h
    · rw [Nat.zero_mul, Nat.zero_add,
        List.getD_append _ _ _ _ (by rw [hlen]; exact hj2), lineBytes]
      have hcl : ((encodeRow8 (f.yP.drop oy)
          (f.uP.drop (chromaAdjust f.fmt420 f.interlaced hr s).ou)
          (f.vP.drop (chromaAdjust f.fmt420 f.interlaced hr s).ov)
          f.width).flatMap AV_WL32).length = (f.width * 8 + 11) / 12 * 4 := by
        rw [flatMap_wl32_length, row8_length _ _ _ _ hw]
        ring
      rw [List.getD_append_right _ _ _ _
        (by rw [hcl]; have := stride_sub_padding f.width; omega)]
      exact getD_replicate_zero _ _
    · have e : (h + 1) * stride f.width + j =
          stride f.width + (h * stride f.width + j) := by ring
      rw [e, List.getD_append_right _ _ _ _ (by rw [hlen]; omega), hlen,
        Nat.add_sub_cancel_left]
      exact ih _ _ _ h j (by omega) hj1 hj2

/-- C5: for every even width the per-line byte count is
stride = ((width+47)/48)*48*8/3, a multiple of 4, computed from the width
alone (`stride` takes no other argument); the output buffer of either
pixel-format branch is exactly height * stride bytes, fully populated. -/
theorem c5_output_geometry (f : Frame) (hw : f.width % 2 = 0) :
    stride f.width = ((f.width + 47) / 48) * 48 * 8 / 3 ∧
    stride f.width % 4 = 0 ∧
    (encode_frame10 f).length = f.height * stride f.width ∧
    (encode_frame8 f).length = f.height * stride f.width := by
  refine ⟨rfl, ?_, ?_, ?_⟩
  · rw [stride, aligned_width]
    omega
  · rw [encode_frame10, rows10_length f hw]
  · rw [encode_frame8, rows8_length f hw]

theorem c5_output_geometry_witness :
    (Frame.mk [1, 2] [3] [4] 2 1 1 2 1 false false).width % 2 = 0 ∧
    (stride 2 = ((2 + 47) / 48) * 48 * 8 / 3 ∧ stride 2 % 4 = 0 ∧
     (encode_frame10 (Frame.mk [1, 2] [3] [4] 2 1 1 2 1 false false)).length =
       1 * stride 2 ∧
     (encode_frame8 (Frame.mk [1, 2] [3] [4] 2 1 1 2 1 false false)).length =
       1 * stride 2) :=
  ⟨by decide, c5_output_geometry (Frame.mk [1, 2] [3] [4] 2 1 1 2 1 false false)
    (by decide)⟩

/-- C7: in every encoded frame (either branch), for every output line, the
trailing line_padding bytes — positions from the end of the content words
up to the stride boundary — are all zero. -/
theorem c7_padding_zero (f : Frame) (hw : f.width % 2 = 0) (h j : Nat)
    (hh : h < f.height) (hj1 : stride f.width - line_padding f.width ≤ j)
    (hj2 : j < stride f.width) :
    (encode_frame10 f).getD (h * stride f.width + j) 0 = 0 ∧
    (encode_frame8 f).getD (h * stride f.width + j) 0 = 0 :=
  ⟨rows10_pad f hw f.height 0 0 0 h j hh hj1 hj2,
   rows8_pad f hw f.height 0 0 ⟨0, 0, 0, 0⟩ h j hh hj1 hj2⟩

theorem c7_padding_zero_witness :
    ((Frame.mk [1, 2] [3] [4] 2 1 1 2 1 false false).width % 2 = 0 ∧
     0 < (Frame.mk [1, 2] [3] [4] 2 1 1 2 1 false false).height ∧
     stride 2 - line_padding 2 ≤ 8 ∧ 8 < stride 2) ∧
    ((encode_frame10 (Frame.mk [1, 2] [3] [4] 2 1 1 2 1 false false)).getD
       (0 * stride 2 + 8) 0 = 0 ∧
     (encode_frame8 (Frame.mk [1, 2] [3] [4] 2 1 1 2 1 false false)).getD
       (0 * stride 2 + 8) 0 = 0) :=
  ⟨⟨by decide, by decide, by decide, by decide⟩,
   c7_padding_zero (Frame.mk [1, 2] [3] [4] 2 1 1 2 1 false false) (by decide)
     0 8 (by decide) (by decide) (by decide)⟩

/-- Chroma state transition over one interlaced 4:2:0 group of four rows:
row 4k captures the chroma offsets, row 4k+2 restores them, so rows 4k and
4k+2 encode from the same chroma offsets, and rows 4k+1 and 4k+3 from the
offsets one line further. -/
theorem group_states (f : Frame) (h420 : f.fmt420 = true)
    (hint : f.interlaced = true) (k a b : Nat)
    (hu : (iterState f (4 * k)).ou = a) (hv : (iterState f (4 * k)).ov = b) :
    chromaUsed f (4 * k) = ⟨a, b, a, b⟩ ∧
    chromaUsed f (4 * k + 1) = ⟨a + f.lsU, b + f.lsV, a, b⟩ ∧
    chromaUsed f (4 * k + 2) = ⟨a, b, a, b⟩ ∧
    chromaUsed f (4 * k + 3) = ⟨a + f.lsU, b + f.lsV, a, b⟩ ∧
    (iterState f (4 * (k + 1))).ou = a + 2 * f.lsU ∧
    (iterState f (4 * (k + 1))).ov = b + 2 * f.lsV := by
  have m0 : (4 * k) % 4 = 0 := by omega
  have m1 : (4 * k + 1) % 4 = 1 := by omega
  have m2 : (4 * k + 2) % 4 = 2 := by omega
  have m3 : (4 * k + 3) % 4 = 3 := by omega
  have U0 : chromaAdjust f.fmt420 f.interlaced (4 * k) (iterState f (4 * k)) =
      ⟨a, b, a, b⟩ := by
    simp [chromaAdjust, h420, hint, m0, hu, hv]
  have I1 : iterState f (4 * k + 1) = ⟨a + f.lsU, b + f.lsV, a, b⟩ := by
    have e : iterState f (4 * k + 1) = chromaAdvance f.lsU f.lsV
        (chromaAdjust f.fmt420 f.interlaced (4 * k) (iterState f (4 * k))) := rfl
    rw [e, U0]
    simp [chromaAdvance]
  have U1 : chromaAdjust f.fmt420 f.interlaced (4 * k + 1)
      (iterState f (4 * k + 1)) = ⟨a + f.lsU, b + f.lsV, a, b⟩ := by
    rw [I1]
    simp [chromaAdjust, h420, hint, m1]
  have I2 : iterState f (4 * k + 2) = ⟨a + f.lsU + f.lsU, b + f.lsV + f.lsV,
      a, b⟩ := by
    have e : iterState f (4 * k + 2) = chromaAdvance f.lsU f.lsV
        (chromaAdjust f.fmt420 f.interlaced (4 * k + 1)
          (iterState f (4 * k + 1))) := rfl
    rw [e, U1]
    simp [chromaAdvance]
  have U2 : chromaAdjust f.fmt420 f.interlaced (4 * k + 2)
      (iterState f (4 * k + 2)) = ⟨a, b, a, b⟩ := by
    rw [I2]
    simp [chromaAdjust, h420, hint, m2]
  have I3 : iterState f (4 * k + 3) = ⟨a + f.lsU, b + f.lsV, a, b⟩ := by
    have e : iterState f (4 * k + 3) = chromaAdvance f.lsU f.lsV
        (chromaAdjust f.fmt420 f.interlaced (4 * k + 2)
          (iterState f (4 * k + 2))) := rfl
    rw [e, U2]
    simp [chromaAdvance]
  have U3 : chromaAdjust f.fmt420 f.interlaced (4 * k + 3)
      (iterState f (4 * k + 3)) = ⟨a + f.lsU, b + f.lsV, a, b⟩ := by
    rw [I3]
    simp [chromaAdjust, h420, hint, m3]
  have I4 : iterState f (4 * (k + 1)) = ⟨a + f.lsU + f.lsU,
      b + f.lsV + f.lsV, a, b⟩ := by
    have e4 : 4 * (k + 1) = 4 * k + 3 + 1 := by ring
    rw [e4]
    have e : iterState f (4 * k + 3 + 1) = chromaAdvance f.lsU f.lsV
        (chromaAdjust f.fmt420 f.interlaced (4 * k + 3)
          (iterState f (4 * k + 3))) := rfl
    rw [e, U3]
    simp [chromaAdvance]
  refine ⟨U0, U1, U2, U3, ?_, ?_⟩ <;> rw [I4] <;> simp <;> ring

/-- Chroma offsets at the start of each interlaced 4-row group: the group
starting at output row 4k reads the chroma planes from offset 2k times the
chroma line stride. -/
theorem iter_interlaced (f : Frame) (h420 : f.fmt420 = true)
    (hint : f.interlaced = true) (k : Nat) :
    (iterState f (4 * k)).ou = 2 * k * f.lsU ∧
    (iterState f (4 * k)).ov = 2 * k * f.lsV := by
  induction k with
  | zero => exact ⟨by simp [iterState], by simp [iterState]⟩
  | succ k ih =>
    obtain ⟨h5, h6⟩ := (group_states f h420 hint k _ _ ih.1 ih.2).2.2.2.2
    constructor
    · rw [h5]
      ring
    · rw [h6]
      ring

/-- Row extraction: row k of the 8-bit frame loop started at row index hr
is the line encoded at luma offset (hr+k)*lsY with the adjusted chroma
state reached after hr+k rows. -/
theorem rows_extract (f : Frame) (hw : f.width % 2 = 0) :
    ∀ n hr k, k < n →
      ((encodeRows8 f n hr (hr * f.lsY) (iterState f hr)).drop
          (k * stride f.width)).take (stride f.width) =
        lineBytes (encodeRow8 (f.yP.drop ((hr + k) * f.lsY))
          (f.uP.drop (chromaUsed f (hr + k)).ou)
          (f.vP.drop (chromaUsed f (hr + k)).ov) f.width) f.width := by
  intro n
  induction n with
  | zero => intro hr k hk; omega
  | succ n ih =>
    intro hr k hk
    have hrow : encodeRows8 f (n + 1) hr (hr * f.lsY) (iterState f hr) =
        rowBytesAt f hr (hr * f.lsY) (iterState f hr) ++
          encodeRows8 f n (hr + 1) (hr * f.lsY + f.lsY)
            (chromaAdvance f.lsU f.lsV
              (chromaAdjust f.fmt420 f.interlaced hr (iterState f hr))) := rfl
    have hlen : (rowBytesAt f hr (hr * f.lsY) (iterState f hr)).length =
        stride f.width := by
      rw [rowBytesAt]
      exact lineBytes_length _ _ (row8_length _ _ _ _ hw)
    rcases k with _ | k
    · rw [hrow, Nat.zero_mul, List.drop_zero, List.take_left' hlen,
        rowBytesAt, Nat.add_zero]
      rfl
    · have e1 : (k + 1) * stride f.width = stride f.width +
          k * stride f.width := by ring
      rw [hrow, e1, ← List.drop_drop, List.drop_left' hlen]
      have e2 : hr * f.lsY + f.lsY = (hr + 1) * f.lsY := by ring
      have e3 : chromaAdvance f.lsU f.lsV
          (chromaAdjust f.fmt420 f.interlaced hr (iterState f hr)) =
          iterState f (hr + 1) := rfl
      rw [e2, e3]
      have e4 : hr + 1 + k = hr + (k + 1) := by ring
      rw [ih (hr + 1) k (by omega), e4]

/-- Row h of the encoded 8-bit frame is the line encoded from luma row h
and the chroma offsets `chromaUsed f h`. -/
theorem frameRow_eq (f : Frame) (hw : f.width % 2 = 0) (h : Nat)
    (hh : h < f.height) :
    frameRow f h = lineBytes (encodeRow8 (f.yP.drop (h * f.lsY))
      (f.uP.drop (chromaUsed f h).ou)
      (f.vP.drop (chromaUsed f h).ov) f.width) f.width := by
  have e : encode_frame8 f =
      encodeRows8 f f.height 0 (0 * f.lsY) (iterState f 0) := by
    rw [encode_frame8]
    norm_num [iterState]
  rw [frameRow, e]
  have := rows_extract f hw f.height 0 h hh
  rw [Nat.zero_add] at this
  exact this

/-- C1 as stated is false: for a 4:2:0 interlaced frame with constant luma
(100 everywhere) and per-row chroma values 10,20 (U) and 30,40 (V), output
byte 0 of row 0 and output byte 0 of row 1 — both pure chroma (U) bits of
the first packed word — differ, so the chroma of rows 4k and 4k+1 is not
identical at k = 0. -/
theorem c1_counterexample :
    (encode_frame8 (Frame.mk (List.replicate 16 100) [10, 10, 20, 20]
        [30, 30, 40, 40] 4 2 2 4 4 true true)).getD (0 * stride 4 + 0) 0 ≠
    (encode_frame8 (Frame.mk (List.replicate 16 100) [10, 10, 20, 20]
        [30, 30, 40, 40] 4 2 2 4 4 true true)).getD (1 * stride 4 + 0) 0 := by
  decide

/-- C1 (amended): for every 4:2:0 interlaced input frame, output rows 4k
and 4k+2 are encoded from identical chroma data (the chroma plane line at
offset 2k times the chroma stride, captured at row 4k and restored at row
4k+2), and output rows 4k+1 and 4k+3 are encoded from the identical next
chroma line at offset 2k+1 lines; the two pairs may differ.  The pairs are
{4k, 4k+2} and {4k+1, 4k+3}, not {4k, 4k+1} and {4k+2, 4k+3}. -/
theorem c1_interlaced_chroma_pairs (f : Frame) (hw : f.width % 2 = 0)
    (h420 : f.fmt420 = true) (hint : f.interlaced = true) (k : Nat)
    (hk : 4 * k + 3 < f.height) :
    frameRow f (4 * k) = lineBytes (encodeRow8 (f.yP.drop ((4 * k) * f.lsY))
        (f.uP.drop (2 * k * f.lsU)) (f.vP.drop (2 * k * f.lsV)) f.width)
        f.width ∧
    frameRow f (4 * k + 2) = lineBytes
        (encodeRow8 (f.yP.drop ((4 * k + 2) * f.lsY))
        (f.uP.drop (2 * k * f.lsU)) (f.vP.drop (2 * k * f.lsV)) f.width)
        f.width ∧
    frameRow f (4 * k + 1) = lineBytes
        (encodeRow8 (f.yP.drop ((4 * k + 1) * f.lsY))
        (f.uP.drop (2 * k * f.lsU + f.lsU))
        (f.vP.drop (2 * k * f.lsV + f.lsV)) f.width) f.width ∧
    frameRow f (4 * k + 3) = lineBytes
        (encodeRow8 (f.yP.drop ((4 * k + 3) * f.lsY))
        (f.uP.drop (2 * k * f.lsU + f.lsU))
        (f.vP.drop (2 * k * f.lsV + f.lsV)) f.width) f.width := by
  obtain ⟨hou, hov⟩ := iter_interlaced f h420 hint k
  obtain ⟨U0, U1, U2, U3, _, _⟩ := group_states f h420 hint k _ _ hou hov
  have cu0 : chromaUsed f (4 * k) = ⟨2 * k * f.lsU, 2 * k * f.lsV,
      2 * k * f.lsU, 2 * k * f.lsV⟩ := U0
  have cu1 : chromaUsed f (4 * k + 1) = ⟨2 * k * f.lsU + f.lsU,
      2 * k * f.lsV + f.lsV, 2 * k * f.lsU, 2 * k * f.lsV⟩ := U1
  have cu2 : chromaUsed f (4 * k + 2) = ⟨2 * k * f.lsU, 2 * k * f.lsV,
      2 * k * f.lsU, 2 * k * f.lsV⟩ := U2
  have cu3 : chromaUsed f (4 * k + 3) = ⟨2 * k * f.lsU + f.lsU,
      2 * k * f.lsV + f.lsV, 2 * k * f.lsU, 2 * k * f.lsV⟩ := U3
  refine ⟨?_, ?_, ?_, ?_⟩
  · rw [frameRow_eq f hw _ (by omega), cu0]
  · rw [frameRow_eq f hw _ (by omega), cu2]
  · rw [frameRow_eq f hw _ (by omega), cu1]
  · rw [frameRow_eq f hw _ (by omega), cu3]

theorem c1_interlaced_chroma_pairs_witness :
    (exFrame420i.width % 2 = 0 ∧ exFrame420i.fmt420 = true ∧
     exFrame420i.interlaced = true ∧ 4 * 0 + 3 < exFrame420i.height) ∧
    (frameRow exFrame420i (4 * 0) = lineBytes (encodeRow8
        (exFrame420i.yP.drop ((4 * 0) * exFrame420i.lsY))
        (exFrame420i.uP.drop (2 * 0 * exFrame420i.lsU))
        (exFrame420i.vP.drop (2 * 0 * exFrame420i.lsV)) exFrame420i.width)
        exFrame420i.width ∧
     frameRow exFrame420i (4 * 0 + 2) = lineBytes (encodeRow8
        (exFrame420i.yP.drop ((4 * 0 + 2) * exFrame420i.lsY))
        (exFrame420i.uP.drop (2 * 0 * exFrame420i.lsU))
        (exFrame420i.vP.drop (2 * 0 * exFrame420i.lsV)) exFrame420i.width)
        exFrame420i.width ∧
     frameRow exFrame420i (4 * 0 + 1) = lineBytes (encodeRow8
        (exFrame420i.yP.drop ((4 * 0 + 1) * exFrame420i.lsY))
        (exFrame420i.uP.drop (2 * 0 * exFrame420i.lsU + exFrame420i.lsU))
        (exFrame420i.vP.drop (2 * 0 * exFrame420i.lsV + exFrame420i.lsV))
        exFrame420i.width) exFrame420i.width ∧
     frameRow exFrame420i (4 * 0 + 3) = lineBytes (encodeRow8
        (exFrame420i.yP.drop ((4 * 0 + 3) * exFrame420i.lsY))
        (exFrame420i.uP.drop (2 * 0 * exFrame420i.lsU + exFrame420i.lsU))
        (exFrame420i.vP.drop (2 * 0 * exFrame420i.lsV + exFrame420i.lsV))
        exFrame420i.width) exFrame420i.width) :=
  ⟨⟨by decide, by decide, by decide, by decide⟩,
   c1_interlaced_chroma_pairs exFrame420i (by decide) (by decide) (by decide)
     0 (by decide)⟩

/-- The bulk-packer-plus-tail structure of a 10-bit row equals the purely
scalar group loop: the bulk packer is a throughput device only. -/
theorem encodeRow10_eq_tail10 (width : Nat) :
    ∀ y u v, encodeRow10 y u v width = tail10 y u v width := by
  induction width using Nat.strong_induction_on with
  | _ width ih =>
    intro y u v
    by_cases h6 : 6 ≤ width
    · have hb : 6 ≤ width / 6 * 6 := by omega
      rw [encodeRow10, pack10_unfold _ _ _ _ hb, List.append_assoc,
        tail10_unfold _ _ _ _ h6]
      congr 1
      rw [← ih (width - 6) (by omega) (y.drop 6) (u.drop 3) (v.drop 3),
        encodeRow10]
      have e1 : (width - 6) / 6 * 6 = width / 6 * 6 - 6 := by omega
      rw [e1]
      simp only [List.drop_drop]
      have i1 : 6 + (width / 6 * 6 - 6) = width / 6 * 6 := by omega
      have i2 : 3 + (width / 6 * 6 - 6) / 2 = width / 6 * 6 / 2 := by omega
      have i3 : width - 6 - (width / 6 * 6 - 6) = width - width / 6 * 6 := by
        omega
      rw [i1, i2, i3]
    · rw [encodeRow10]
      have e : width / 6 * 6 = 0 := by omega
      rw [e, pack10_nil _ _ _ _ (by omega)]
      norm_num

/-- The 8-bit analogue: a row equals the purely scalar group loop. -/
theorem encodeRow8_eq_tail8 (width : Nat) :
    ∀ y u v, encodeRow8 y u v width = tail8 y u v width := by
  induction width using Nat.strong_induction_on with
  | _ width ih =>
    intro y u v
    by_cases h12 : 12 ≤ width
    · have hb : 12 ≤ width / 12 * 12 := by omega
      rw [encodeRow8, pack8_unfold _ _ _ _ hb, List.append_assoc,
        List.append_assoc, tail8_unfold _ _ _ _ (by omega : 6 ≤ width),
        tail8_unfold _ _ _ _ (by omega : 6 ≤ width - 6)]
      congr 1
      simp only [List.drop_drop]
      congr 1
      rw [← ih (width - 6 - 6) (by omega) (y.drop (6 + 6)) (u.drop (3 + 3))
        (v.drop (3 + 3)), encodeRow8]
      have e1 : (width - 6 - 6) / 12 * 12 = width / 12 * 12 - 12 := by omega
      rw [e1]
      simp only [List.drop_drop]
      have i1 : 6 + 6 + (width / 12 * 12 - 12) = width / 12 * 12 := by omega
      have i2 : 3 + 3 + (width / 12 * 12 - 12) / 2 = width / 12 * 12 / 2 := by
        omega
      have i3 : width - 6 - 6 - (width / 12 * 12 - 12) =
          width - width / 12 * 12 := by omega
      rw [i1, i2, i3]
    · rw [encodeRow8]
      have e : width / 12 * 12 = 0 := by omega
      rw [e, pack8_nil _ _ _ _ (by omega)]
      norm_num

theorem exists_six (y : List Nat) (h : 6 ≤ y.length) :
    ∃ a b c d e f t, y = a :: b :: c :: d :: e :: f :: t := by
  match y with
  | a :: b :: c :: d :: e :: f :: t => exact ⟨a, b, c, d, e, f, t, rfl⟩
  | [] => simp at h
  | [a] => simp at h
  | [a, b] => simp at h
  | [a, b, c] => simp at h
  | [a, b, c, d] => simp at h
  | [a, b, c, d, e] => simp at h

theorem exists_three (u : List Nat) (h : 3 ≤ u.length) :
    ∃ a b c t, u = a :: b :: c :: t := by
  match u with
  | a :: b :: c :: t => exact ⟨a, b, c, t, rfl⟩
  | [] => simp at h
  | [a] => simp at h
  | [a, b] => simp at h

theorem eq_four (y : List Nat) (h : y.length = 4) :
    ∃ a b c d, y = [a, b, c, d] := by
  match y with
  | [a, b, c, d] => exact ⟨a, b, c, d, rfl⟩
  | [] => simp at h
  | [a] => simp at h
  | [a, b] => simp at h
  | [a, b, c] => simp at h
  | a :: b :: c :: d :: e :: t =>
    simp only [List.length_cons] at h
    omega

theorem eq_two (y : List Nat) (h : y.length = 2) : ∃ a b, y = [a, b] := by
  match y with
  | [a, b] => exact ⟨a, b, rfl⟩
  | [] => simp at h
  | [a] => simp at h
  | a :: b :: c :: t =>
    simp only [List.length_cons] at h
    omega

theorem eq_one (y : List Nat) (h : y.length = 1) : ∃ a, y = [a] := by
  match y with
  | [a] => exact ⟨a, rfl⟩
  | [] => simp at h
  | a :: b :: t =>
    simp only [List.length_cons] at h
    omega

theorem field0_w3 (a b c : Nat) :
    field0 (CLIP a ||| (CLIP b <<< 10) ||| (CLIP c <<< 20)) = CLIP a := by
  have e : (CLIP a ||| (CLIP b <<< 10) ||| (CLIP c <<< 20)) =
      CLIP a + 1024 * CLIP b + 1048576 * CLIP c := writePixels_val a b c
  rw [field0, e]
  have := CLIP_le a; have := CLIP_le b; have := CLIP_le c
  omega

theorem field1_w3 (a b c : Nat) :
    field1 (CLIP a ||| (CLIP b <<< 10) ||| (CLIP c <<< 20)) = CLIP b := by
  have e : (CLIP a ||| (CLIP b <<< 10) ||| (CLIP c <<< 20)) =
      CLIP a + 1024 * CLIP b + 1048576 * CLIP c := writePixels_val a b c
  rw [field1, e]
  have := CLIP_le a; have := CLIP_le b; have := CLIP_le c
  omega

theorem field2_w3 (a b c : Nat) :
    field2 (CLIP a ||| (CLIP b <<< 10) ||| (CLIP c <<< 20)) = CLIP c := by
  have e : (CLIP a ||| (CLIP b <<< 10) ||| (CLIP c <<< 20)) =
      CLIP a + 1024 * CLIP b + 1048576 * CLIP c := writePixels_val a b c
  rw [field2, e]
  have := CLIP_le a; have := CLIP_le b; have := CLIP_le c
  omega

theorem field0_w2 (a b : Nat) :
    field0 (CLIP a ||| (CLIP b <<< 10)) = CLIP a := by
  rw [field0, tailWord_val]
  have := CLIP_le a; have := CLIP_le b
  omega

theorem field1_w2 (a b : Nat) :
    field1 (CLIP a ||| (CLIP b <<< 10)) = CLIP b := by
  rw [field1, tailWord_val]
  have := CLIP_le a; have := CLIP_le b
  omega

theorem field0_w1 (a : Nat) : field0 (CLIP a) = CLIP a := by
  rw [field0]
  have := CLIP_le a
  omega

theorem field0_w38 (a b c : Nat) :
    field0 ((CLIP8 a <<< 2) ||| (CLIP8 b <<< 12) ||| (CLIP8 c <<< 22)) =
      4 * CLIP8 a := by
  have e : ((CLIP8 a <<< 2) ||| (CLIP8 b <<< 12) ||| (CLIP8 c <<< 22)) =
      4 * CLIP8 a + 4096 * CLIP8 b + 4194304 * CLIP8 c := writePixels8_val a b c
  rw [field0, e]
  have := CLIP8_le a; have := CLIP8_le b; have := CLIP8_le c
  omega

theorem field1_w38 (a b c : Nat) :
    field1 ((CLIP8 a <<< 2) ||| (CLIP8 b <<< 12) ||| (CLIP8 c <<< 22)) =
      4 * CLIP8 b := by
  have e : ((CLIP8 a <<< 2) ||| (CLIP8 b <<< 12) ||| (CLIP8 c <<< 22)) =
      4 * CLIP8 a + 4096 * CLIP8 b + 4194304 * CLIP8 c := writePixels8_val a b c
  rw [field1, e]
  have := CLIP8_le a; have := CLIP8_le b; have := CLIP8_le c
  omega

theorem field2_w38 (a b c : Nat) :
    field2 ((CLIP8 a <<< 2) ||| (CLIP8 b <<< 12) ||| (CLIP8 c <<< 22)) =
      4 * CLIP8 c := by
  have e : ((CLIP8 a <<< 2) ||| (CLIP8 b <<< 12) ||| (CLIP8 c <<< 22)) =
      4 * CLIP8 a + 4096 * CLIP8 b + 4194304 * CLIP8 c := writePixels8_val a b c
  rw [field2, e]
  have := CLIP8_le a; have := CLIP8_le b; have := CLIP8_le c
  omega

theorem field0_w28 (a b : Nat) :
    field0 ((CLIP8 a <<< 2) ||| (CLIP8 b <<< 12)) = 4 * CLIP8 a := by
  rw [field0, tailWord8_val]
  have := CLIP8_le a; have := CLIP8_le b
  omega

theorem field1_w28 (a b : Nat) :
    field1 ((CLIP8 a <<< 2) ||| (CLIP8 b <<< 12)) = 4 * CLIP8 b := by
  rw [field1, tailWord8_val]
  have := CLIP8_le a; have := CLIP8_le b
  omega

theorem field0_w18 (a : Nat) : field0 (CLIP8 a <<< 2) = 4 * CLIP8 a := by
  rw [field0, Nat.shiftLeft_eq]
  have := CLIP8_le a
  omega

theorem unpackRow10_six (ws : List Nat) (width : Nat) :
    unpackRow10 ws (width + 6) =
      (field1 (nth ws 0) :: field0 (nth ws 1) :: field2 (nth ws 1) ::
         field1 (nth ws 2) :: field0 (nth ws 3) :: field2 (nth ws 3) ::
         (unpackRow10 (ws.drop 4) width).1,
       field0 (nth ws 0) :: field1 (nth ws 1) :: field2 (nth ws 2) ::
         (unpackRow10 (ws.drop 4) width).2.1,
       field2 (nth ws 0) :: field0 (nth ws 2) :: field1 (nth ws 3) ::
         (unpackRow10 (ws.drop 4) width).2.2) := rfl

theorem unpackRow10_four (ws : List Nat) :
    unpackRow10 ws 4 =
      ([field1 (nth ws 0), field0 (nth ws 1), field2 (nth ws 1),
        field1 (nth ws 2)],
       [field0 (nth ws 0), field1 (nth ws 1)],
       [field2 (nth ws 0), field0 (nth ws 2)]) := rfl

theorem unpackRow10_two (ws : List Nat) :
    unpackRow10 ws 2 =
      ([field1 (nth ws 0), field0 (nth ws 1)],
       [field0 (nth ws 0)], [field2 (nth ws 0)]) := rfl

theorem unpack_tail10 (width : Nat) :
    ∀ y u v : List Nat, width % 2 = 0 → y.length = width →
      u.length = width / 2 → v.length = width / 2 →
      (∀ s ∈ y, 4 ≤ s ∧ s ≤ 1019) → (∀ s ∈ u, 4 ≤ s ∧ s ≤ 1019) →
      (∀ s ∈ v, 4 ≤ s ∧ s ≤ 1019) →
      unpackRow10 (tail10 y u v width) width = (y, u, v) := by
  induction width using Nat.strong_induction_on with
  | _ width ih =>
    intro y u v hw hy hu hv ry ru rv
    by_cases h6 : 6 ≤ width
    · obtain ⟨wm, rfl⟩ : ∃ wm, width = wm + 6 := ⟨width - 6, by omega⟩
      obtain ⟨y0, y1, y2, y3, y4, y5, yt, rfl⟩ := exists_six y (by omega)
      obtain ⟨u0, u1, u2, ut, rfl⟩ := exists_three u (by omega)
      obtain ⟨v0, v1, v2, vt, rfl⟩ := exists_three v (by omega)
      rw [tail10_unfold _ _ _ _ (by omega)]
      simp only [pack10Group, nth, writePixels, List.getD_cons_zero,
        List.getD_cons_succ, List.cons_append, List.nil_append,
        List.drop_succ_cons, List.drop_zero, Nat.add_sub_cancel]
      rw [unpackRow10_six]
      simp only [nth, List.getD_cons_zero, List.getD_cons_succ,
        List.drop_succ_cons, List.drop_zero,
        field0_w3, field1_w3, field2_w3]
      have recur := ih wm (by omega) yt ut vt (by omega)
        (by simp only [List.length_cons] at hy; omega)
        (by simp only [List.length_cons] at hu; omega)
        (by simp only [List.length_cons] at hv; omega)
        (fun s hs => ry s (by simp [hs]))
        (fun s hs => ru s (by simp [hs]))
        (fun s hs => rv s (by simp [hs]))
      rw [recur]
      obtain ⟨hy0l, hy0r⟩ := ry y0 (by simp)
      obtain ⟨hy1l, hy1r⟩ := ry y1 (by simp)
      obtain ⟨hy2l, hy2r⟩ := ry y2 (by simp)
      obtain ⟨hy3l, hy3r⟩ := ry y3 (by simp)
      obtain ⟨hy4l, hy4r⟩ := ry y4 (by simp)
      obtain ⟨hy5l, hy5r⟩ := ry y5 (by simp)
      obtain ⟨hu0l, hu0r⟩ := ru u0 (by simp)
      obtain ⟨hu1l, hu1r⟩ := ru u1 (by simp)
      obtain ⟨hu2l, hu2r⟩ := ru u2 (by simp)
      obtain ⟨hv0l, hv0r⟩ := rv v0 (by simp)
      obtain ⟨hv1l, hv1r⟩ := rv v1 (by simp)
      obtain ⟨hv2l, hv2r⟩ := rv v2 (by simp)
      rw [CLIP_of_mem y0 hy0l hy0r, CLIP_of_mem y1 hy1l hy1r,
        CLIP_of_mem y2 hy2l hy2r, CLIP_of_mem y3 hy3l hy3r,
        CLIP_of_mem y4 hy4l hy4r, CLIP_of_mem y5 hy5l hy5r,
        CLIP_of_mem u0 hu0l hu0r, CLIP_of_mem u1 hu1l hu1r,
        CLIP_of_mem u2 hu2l hu2r, CLIP_of_mem v0 hv0l hv0r,
        CLIP_of_mem v1 hv1l hv1r, CLIP_of_mem v2 hv2l hv2r]
    · have h3 : width = 0 ∨ width = 2 ∨ width = 4 := by omega
      rcases h3 with rfl | rfl | rfl
      · have hy0 : y = [] := List.eq_nil_of_length_eq_zero hy
        have hu0 : u = [] := List.eq_nil_of_length_eq_zero hu
        have hv0 : v = [] := List.eq_nil_of_length_eq_zero hv
        subst hy0; subst hu0; subst hv0
        rfl
      · obtain ⟨a, b, rfl⟩ := eq_two y hy
        obtain ⟨c, rfl⟩ := eq_one u hu
        obtain ⟨d, rfl⟩ := eq_one v hv
        rw [tail10_rem _ _ _ _ (by omega)]
        simp only [tailRem10, nth, List.getD_cons_zero, List.getD_cons_succ,
          writePixels]
        norm_num
        rw [unpackRow10_two]
        simp only [nth, List.getD_cons_zero, List.getD_cons_succ,
          field0_w3, field1_w3, field2_w3, field0_w1]
        obtain ⟨hal, har⟩ := ry a (by simp)
        obtain ⟨hbl, hbr⟩ := ry b (by simp)
        obtain ⟨hcl, hcr⟩ := ru c (by simp)
        obtain ⟨hdl, hdr⟩ := rv d (by simp)
        rw [CLIP_of_mem a hal har, CLIP_of_mem b hbl hbr,
          CLIP_of_mem c hcl hcr, CLIP_of_mem d hdl hdr]
      · obtain ⟨a, b, c, d, rfl⟩ := eq_four y hy
        obtain ⟨e, f, rfl⟩ := eq_two u hu
        obtain ⟨g, h, rfl⟩ := eq_two v hv
        rw [tail10_rem _ _ _ _ (by omega)]
        simp only [tailRem10, nth, List.getD_cons_zero, List.getD_cons_succ,
          writePixels]
        norm_num
        rw [unpackRow10_four]
        simp only [nth, List.getD_cons_zero, List.getD_cons_succ,
          field0_w3, field1_w3, field2_w3, field0_w2, field1_w2]
        obtain ⟨hal, har⟩ := ry a (by simp)
        obtain ⟨hbl, hbr⟩ := ry b (by simp)
        obtain ⟨hcl, hcr⟩ := ry c (by simp)
        obtain ⟨hdl, hdr⟩ := ry d (by simp)
        obtain ⟨hel, her⟩ := ru e (by simp)
        obtain ⟨hfl, hfr⟩ := ru f (by simp)
        obtain ⟨hgl, hgr⟩ := rv g (by simp)
        obtain ⟨hhl, hhr⟩ := rv h (by simp)
        rw [CLIP_of_mem a hal har, CLIP_of_mem b hbl hbr,
          CLIP_of_mem c hcl hcr, CLIP_of_mem d hdl hdr,
          CLIP_of_mem e hel her, CLIP_of_mem f hfl hfr,
          CLIP_of_mem g hgl hgr, CLIP_of_mem h hhl hhr]
theorem unpack_tail8 (width : Nat) :
    ∀ y u v : List Nat, width % 2 = 0 → y.length = width →
      u.length = width / 2 → v.length = width / 2 →
      (∀ s ∈ y, 1 ≤ s ∧ s ≤ 254) → (∀ s ∈ u, 1 ≤ s ∧ s ≤ 254) →
      (∀ s ∈ v, 1 ≤ s ∧ s ≤ 254) →
      unpackRow10 (tail8 y u v width) width =
        (y.map (fun s => 4 * s), u.map (fun s => 4 * s),
         v.map (fun s => 4 * s)) := by
  induction width using Nat.strong_induction_on with
  | _ width ih =>
    intro y u v hw hy hu hv ry ru rv
    by_cases h6 : 6 ≤ width
    · obtain ⟨wm, rfl⟩ : ∃ wm, width = wm + 6 := ⟨width - 6, by omega⟩
      obtain ⟨y0, y1, y2, y3, y4, y5, yt, rfl⟩ := exists_six y (by omega)
      obtain ⟨u0, u1, u2, ut, rfl⟩ := exists_three u (by omega)
      obtain ⟨v0, v1, v2, vt, rfl⟩ := exists_three v (by omega)
      rw [tail8_unfold _ _ _ _ (by omega)]
      simp only [pack8Group, nth, writePixels8, List.getD_cons_zero,
        List.getD_cons_succ, List.cons_append, List.nil_append,
        List.drop_succ_cons, List.drop_zero, Nat.add_sub_cancel]
      rw [unpackRow10_six]
      simp only [nth, List.getD_cons_zero, List.getD_cons_succ,
        List.drop_succ_cons, List.drop_zero,
        field0_w38, field1_w38, field2_w38]
      have recur := ih wm (by omega) yt ut vt (by omega)
        (by simp only [List.length_cons] at hy; omega)
        (by simp only [List.length_cons] at hu; omega)
        (by simp only [List.length_cons] at hv; omega)
        (fun s hs => ry s (by simp [hs]))
        (fun s hs => ru s (by simp [hs]))
        (fun s hs => rv s (by simp [hs]))
      rw [recur]
      obtain ⟨hy0l, hy0r⟩ := ry y0 (by simp)
      obtain ⟨hy1l, hy1r⟩ := ry y1 (by simp)
      obtain ⟨hy2l, hy2r⟩ := ry y2 (by simp)
      obtain ⟨hy3l, hy3r⟩ := ry y3 (by simp)
      obtain ⟨hy4l, hy4r⟩ := ry y4 (by simp)
      obtain ⟨hy5l, hy5r⟩ := ry y5 (by simp)
      obtain ⟨hu0l, hu0r⟩ := ru u0 (by simp)
      obtain ⟨hu1l, hu1r⟩ := ru u1 (by simp)
      obtain ⟨hu2l, hu2r⟩ := ru u2 (by simp)
      obtain ⟨hv0l, hv0r⟩ := rv v0 (by simp)
      obtain ⟨hv1l, hv1r⟩ := rv v1 (by simp)
      obtain ⟨hv2l, hv2r⟩ := rv v2 (by simp)
      rw [CLIP8_of_mem y0 hy0l hy0r, CLIP8_of_mem y1 hy1l hy1r,
        CLIP8_of_mem y2 hy2l hy2r, CLIP8_of_mem y3 hy3l hy3r,
        CLIP8_of_mem y4 hy4l hy4r, CLIP8_of_mem y5 hy5l hy5r,
        CLIP8_of_mem u0 hu0l hu0r, CLIP8_of_mem u1 hu1l hu1r,
        CLIP8_of_mem u2 hu2l hu2r, CLIP8_of_mem v0 hv0l hv0r,
        CLIP8_of_mem v1 hv1l hv1r, CLIP8_of_mem v2 hv2l hv2r]
      simp only [List.map_cons]
    · have h3 : width = 0 ∨ width = 2 ∨ width = 4 := by omega
      rcases h3 with rfl | rfl | rfl
      · have hy0 : y = [] := List.eq_nil_of_length_eq_zero hy
        have hu0 : u = [] := List.eq_nil_of_length_eq_zero hu
        have hv0 : v = [] := List.eq_nil_of_length_eq_zero hv
        subst hy0; subst hu0; subst hv0
        rfl
      · obtain ⟨a, b, rfl⟩ := eq_two y hy
        obtain ⟨c, rfl⟩ := eq_one u hu
        obtain ⟨d, rfl⟩ := eq_one v hv
        rw [tail8_rem _ _ _ _ (by omega)]
        simp only [tailRem8, nth, List.getD_cons_zero, List.getD_cons_succ,
          writePixels8]
        norm_num
        rw [unpackRow10_two]
        simp only [nth, List.getD_cons_zero, List.getD_cons_succ,
          field0_w38, field1_w38, field2_w38, field0_w18]
        obtain ⟨hal, har⟩ := ry a (by simp)
        obtain ⟨hbl, hbr⟩ := ry b (by simp)
        obtain ⟨hcl, hcr⟩ := ru c (by simp)
        obtain ⟨hdl, hdr⟩ := rv d (by simp)
        rw [CLIP8_of_mem a hal har, CLIP8_of_mem b hbl hbr,
          CLIP8_of_mem c hcl hcr, CLIP8_of_mem d hdl hdr]
      · obtain ⟨a, b, c, d, rfl⟩ := eq_four y hy
        obtain ⟨e, f, rfl⟩ := eq_two u hu
        obtain ⟨g, h, rfl⟩ := eq_two v hv
        rw [tail8_rem _ _ _ _ (by omega)]
        simp only [tailRem8, nth, List.getD_cons_zero, List.getD_cons_succ,
          writePixels8]
        norm_num
        rw [unpackRow10_four]
        simp only [nth, List.getD_cons_zero, List.getD_cons_succ,
          field0_w38, field1_w38, field2_w38, field0_w28, field1_w28]
        obtain ⟨hal, har⟩ := ry a (by simp)
        obtain ⟨hbl, hbr⟩ := ry b (by simp)
        obtain ⟨hcl, hcr⟩ := ry c (by simp)
        obtain ⟨hdl, hdr⟩ := ry d (by simp)
        obtain ⟨hel, her⟩ := ru e (by simp)
        obtain ⟨hfl, hfr⟩ := ru f (by simp)
        obtain ⟨hgl, hgr⟩ := rv g (by simp)
        obtain ⟨hhl, hhr⟩ := rv h (by simp)
        rw [CLIP8_of_mem a hal har, CLIP8_of_mem b hbl hbr,
          CLIP8_of_mem c hcl hcr, CLIP8_of_mem d hdl hdr,
          CLIP8_of_mem e hel her, CLIP8_of_mem f hfl hfr,
          CLIP8_of_mem g hgl hgr, CLIP8_of_mem h hhl hhr]

/-- C9: packing followed by conceptual unpacking of the v210 words of a
row reproduces the original samples exactly whenever every sample lies in
the legal clip range ([4,1019] on the 10-bit path, [1,254] on the 8-bit
path, whose fields are unshifted by 2 on unpacking): the encoding is
lossless for in-range input, including the width mod 6 = 2 and 4 tails. -/
theorem c9_roundtrip (width : Nat) (hw : width % 2 = 0) :
    (∀ y u v : List Nat, y.length = width → u.length = width / 2 →
      v.length = width / 2 →
      (∀ s ∈ y, 4 ≤ s ∧ s ≤ 1019) → (∀ s ∈ u, 4 ≤ s ∧ s ≤ 1019) →
      (∀ s ∈ v, 4 ≤ s ∧ s ≤ 1019) →
      unpackRow10 (encodeRow10 y u v width) width = (y, u, v)) ∧
    (∀ y u v : List Nat, y.length = width → u.length = width / 2 →
      v.length = width / 2 →
      (∀ s ∈ y, 1 ≤ s ∧ s ≤ 254) → (∀ s ∈ u, 1 ≤ s ∧ s ≤ 254) →
      (∀ s ∈ v, 1 ≤ s ∧ s ≤ 254) →
      unpackRow8 (encodeRow8 y u v width) width = (y, u, v)) := by
  constructor
  · intro y u v hy hu hv ry ru rv
    rw [encodeRow10_eq_tail10]
    exact unpack_tail10 width y u v hw hy hu hv ry ru rv
  · intro y u v hy hu hv ry ru rv
    rw [encodeRow8_eq_tail8, unpackRow8,
      unpack_tail8 width y u v hw hy hu hv ry ru rv]
    simp only [List.map_map]
    have he : ((fun s : Nat => s / 4) ∘ fun s : Nat => 4 * s) =
        fun s : Nat => s := funext fun s => by
      simp only [Function.comp]
      omega
    rw [he, List.map_id', List.map_id', List.map_id']

theorem c9_roundtrip_witness :
    (2 : Nat) % 2 = 0 ∧
    unpackRow10 (encodeRow10 [500, 600] [100] [200] 2) 2 =
      ([500, 600], [100], [200]) :=
  ⟨by decide, (c9_roundtrip 2 (by decide)).1 [500, 600] [100] [200]
    (by decide) (by decide) (by decide) (by decide) (by decide) (by decide)⟩

/-- Splitting the scalar 8-bit tail loop at the last complete group of 6:
the words of the group loop over the first (width/6)*6 samples followed by
the remainder handler over the final width mod 6 samples. -/
theorem tail8_split (width : Nat) :
    ∀ y u v, tail8 y u v width =
      tail8 y u v (width / 6 * 6) ++
        tailRem8 (y.drop (width / 6 * 6)) (u.drop (width / 6 * 6 / 2))
          (v.drop (width / 6 * 6 / 2)) (width % 6) := by
  induction width using Nat.strong_induction_on with
  | _ width ih =>
    intro y u v
    by_cases h6 : 6 ≤ width
    · have hb : 6 ≤ width / 6 * 6 := by omega
      rw [tail8_unfold _ _ _ _ h6, tail8_unfold _ _ _ _ hb,
        List.append_assoc]
      congr 1
      rw [ih (width - 6) (by omega) (y.drop 6) (u.drop 3) (v.drop 3)]
      have e1 : (width - 6) / 6 * 6 = width / 6 * 6 - 6 := by omega
      have e2 : (width - 6) % 6 = width % 6 := by omega
      rw [e1, e2]
      simp only [List.drop_drop]
      have i1 : 6 + (width / 6 * 6 - 6) = width / 6 * 6 := by omega
      have i2 : 3 + (width / 6 * 6 - 6) / 2 = width / 6 * 6 / 2 := by omega
      rw [i1, i2]
    · have e : width / 6 * 6 = 0 := by omega
      have e2 : width % 6 = width := by omega
      rw [e, e2, tail8_rem _ _ _ _ (by omega : width < 6),
        tail8_rem _ _ _ _ (by norm_num : (0 : Nat) < 6)]
      simp [tailRem8]

/-- C3 (amended): at the remainder boundary w = (width/6)*6 of a row, on
both the 10-bit and the 8-bit path, if exactly 4 samples remain the
encoder emits a full (U,Y,V) word, then a deferred partial word that holds
only the next luma sample until it is completed with U and Y, then a final
(V,Y) word — three whole words; if exactly 2 samples remain the full
(U,Y,V) word is followed by the partial word holding only the last luma
sample, flushed immediately — two whole words; in every case the content
is whole 4-byte words and the padded line is exactly `stride` bytes, never
a partial word. -/
theorem c3_tail_boundary (y u v : List Nat) (width : Nat)
    (hw : width % 2 = 0) :
    (width % 6 = 4 →
      encodeRow10 y u v width =
        v210_planar_pack_10_c y u v (width / 6 * 6) ++
          [ writePixels (nth u (width / 6 * 6 / 2)) (nth y (width / 6 * 6))
              (nth v (width / 6 * 6 / 2)),
            CLIP (nth y (width / 6 * 6 + 1)) |||
              (CLIP (nth u (width / 6 * 6 / 2 + 1)) <<< 10) |||
              (CLIP (nth y (width / 6 * 6 + 2)) <<< 20),
            CLIP (nth v (width / 6 * 6 / 2 + 1)) |||
              (CLIP (nth y (width / 6 * 6 + 3)) <<< 10) ]) ∧
    (width % 6 = 2 →
      encodeRow10 y u v width =
        v210_planar_pack_10_c y u v (width / 6 * 6) ++
          [ writePixels (nth u (width / 6 * 6 / 2)) (nth y (width / 6 * 6))
              (nth v (width / 6 * 6 / 2)),
            CLIP (nth y (width / 6 * 6 + 1)) ]) ∧
    (width % 6 = 4 →
      encodeRow8 y u v width =
        tail8 y u v (width / 6 * 6) ++
          [ writePixels8 (nth u (width / 6 * 6 / 2)) (nth y (width / 6 * 6))
              (nth v (width / 6 * 6 / 2)),
            (CLIP8 (nth y (width / 6 * 6 + 1)) <<< 2) |||
              (CLIP8 (nth u (width / 6 * 6 / 2 + 1)) <<< 12) |||
              (CLIP8 (nth y (width / 6 * 6 + 2)) <<< 22),
            (CLIP8 (nth v (width / 6 * 6 / 2 + 1)) <<< 2) |||
              (CLIP8 (nth y (width / 6 * 6 + 3)) <<< 12) ]) ∧
    (width % 6 = 2 →
      encodeRow8 y u v width =
        tail8 y u v (width / 6 * 6) ++
          [ writePixels8 (nth u (width / 6 * 6 / 2)) (nth y (width / 6 * 6))
              (nth v (width / 6 * 6 / 2)),
            CLIP8 (nth y (width / 6 * 6 + 1)) <<< 2 ]) ∧
    ((encodeRow10 y u v width).flatMap AV_WL32).length % 4 = 0 ∧
    (lineBytes (encodeRow10 y u v width) width).length = stride width ∧
    ((encodeRow8 y u v width).flatMap AV_WL32).length % 4 = 0 ∧
    (lineBytes (encodeRow8 y u v width) width).length = stride width := by
  refine ⟨?_, ?_, ?_, ?_, ?_,
    lineBytes_length _ _ (row10_length y u v width hw), ?_,
    lineBytes_length _ _ (row8_length y u v width hw)⟩
  · intro h4
    rw [encodeRow10, tail10_rem _ _ _ _ (by omega)]
    congr 1
    have hr : width - width / 6 * 6 = 4 := by omega
    rw [hr]
    simp only [tailRem10, nth_drop]
    norm_num
  · intro h2
    rw [encodeRow10, tail10_rem _ _ _ _ (by omega)]
    congr 1
    have hr : width - width / 6 * 6 = 2 := by omega
    rw [hr]
    simp only [tailRem10, nth_drop]
    norm_num
  · intro h4
    rw [encodeRow8_eq_tail8, tail8_split]
    congr 1
    rw [h4]
    simp only [tailRem8, nth_drop, writePixels8]
    norm_num
  · intro h2
    rw [encodeRow8_eq_tail8, tail8_split]
    congr 1
    rw [h2]
    simp only [tailRem8, nth_drop, writePixels8]
    norm_num
  · rw [flatMap_wl32_length]
    omega
  · rw [flatMap_wl32_length]
    omega

theorem c3_tail_boundary_witness :
    (10 : Nat) % 2 = 0 ∧
    ((10 : Nat) % 6 = 4 →
      encodeRow10 [1, 2, 3, 4, 5, 6, 7, 8, 9, 10] [11, 12, 13, 14, 15]
          [21, 22, 23, 24, 25] 10 =
        v210_planar_pack_10_c [1, 2, 3, 4, 5, 6, 7, 8, 9, 10]
            [11, 12, 13, 14, 15] [21, 22, 23, 24, 25] (10 / 6 * 6) ++
          [ writePixels (nth [11, 12, 13, 14, 15] (10 / 6 * 6 / 2))
              (nth [1, 2, 3, 4, 5, 6, 7, 8, 9, 10] (10 / 6 * 6))
              (nth [21, 22, 23, 24, 25] (10 / 6 * 6 / 2)),
            CLIP (nth [1, 2, 3, 4, 5, 6, 7, 8, 9, 10] (10 / 6 * 6 + 1)) |||
              (CLIP (nth [11, 12, 13, 14, 15] (10 / 6 * 6 / 2 + 1)) <<< 10) |||
              (CLIP (nth [1, 2, 3, 4, 5, 6, 7, 8, 9, 10] (10 / 6 * 6 + 2)) <<< 20),
            CLIP (nth [21, 22, 23, 24, 25] (10 / 6 * 6 / 2 + 1)) |||
              (CLIP (nth [1, 2, 3, 4, 5, 6, 7, 8, 9, 10] (10 / 6 * 6 + 3)) <<< 10) ]) ∧
    ((10 : Nat) % 6 = 4 →
      encodeRow8 [1, 2, 3, 4, 5, 6, 7, 8, 9, 10] [11, 12, 13, 14, 15]
          [21, 22, 23, 24, 25] 10 =
        tail8 [1, 2, 3, 4, 5, 6, 7, 8, 9, 10] [11, 12, 13, 14, 15]
            [21, 22, 23, 24, 25] (10 / 6 * 6) ++
          [ writePixels8 (nth [11, 12, 13, 14, 15] (10 / 6 * 6 / 2))
              (nth [1, 2, 3, 4, 5, 6, 7, 8, 9, 10] (10 / 6 * 6))
              (nth [21, 22, 23, 24, 25] (10 / 6 * 6 / 2)),
            (CLIP8 (nth [1, 2, 3, 4, 5, 6, 7, 8, 9, 10] (10 / 6 * 6 + 1)) <<< 2) |||
              (CLIP8 (nth [11, 12, 13, 14, 15] (10 / 6 * 6 / 2 + 1)) <<< 12) |||
              (CLIP8 (nth [1, 2, 3, 4, 5, 6, 7, 8, 9, 10] (10 / 6 * 6 + 2)) <<< 22),
            (CLIP8 (nth [21, 22, 23, 24, 25] (10 / 6 * 6 / 2 + 1)) <<< 2) |||
              (CLIP8 (nth [1, 2, 3, 4, 5, 6, 7, 8, 9, 10] (10 / 6 * 6 + 3)) <<< 12) ]) :=
  ⟨by decide,
   (c3_tail_boundary [1, 2, 3, 4, 5, 6, 7, 8, 9, 10] [11, 12, 13, 14, 15]
      [21, 22, 23, 24, 25] 10 (by decide)).1,
   (c3_tail_boundary [1, 2, 3, 4, 5, 6, 7, 8, 9, 10] [11, 12, 13, 14, 15]
      [21, 22, 23, 24, 25] 10 (by decide)).2.2.1⟩

end V210
